import Mathlib

/-! # go-graylog mock server: stores, request-body validator, wrapper

A shallow embedding of `mock_index_set.go`, of the helpers of `util.go`
(`validateRequestBody`, `writeApiError`, `addToStringArray`,
`randStringBytesMaskImprSrc`), of `GetAlerts` in the plain store and in the
logic layer, and of `wrapHandle`, followed by the properties proved about them.

Conventions of the embedding

* A Go `map[string]T` is an association list in which every key occurs at most
  once (`Entries T`); the nil map is `none` of `GoMap T`.
* A `for k, v := range m` loop whose outcome depends on the order in which Go
  visits the map takes that order from a `RangeOrder`: any permutation of the
  entries, chosen per loop site.
* A Go `error` is `Option String`: `none` is `nil`, `some msg` carries the text.
* A run-time panic (assignment into a nil map, a slice of negative length, an
  index outside a slice) is the outer `none` of the operations that return
  `Option`.
* A Go slice is a list; the nil slice is the empty list.
* A loop that need not end takes a fuel argument and returns `none` when the
  fuel runs out.
-/

namespace Graylog

/-! ## Go maps -/

/-- Entries of a non-nil Go map with string keys. -/
abbrev Entries (α : Type) := List (String × α)

namespace Entries

variable {α : Type}

/-- Map read `m[key]` with the comma-ok form: `none` when the key is absent. -/
def get? : Entries α → String → Option α
  | [], _ => none
  | (k, v) :: m, key => if k = key then some v else get? m key

/-- The `_, ok := m[key]` test. -/
def has (m : Entries α) (key : String) : Bool := (get? m key).isSome

/-- Map write `m[key] = v`: replaces the entry of an existing key, adds one otherwise. -/
def set : Entries α → String → α → Entries α
  | [], key, v => [(key, v)]
  | (k, w) :: m, key, v => if k = key then (key, v) :: m else (k, w) :: set m key v

/-- Builtin `delete(m, key)`. -/
def delete (m : Entries α) (key : String) : Entries α :=
  m.filter (fun e => !decide (e.1 = key))

/-- Keys of the map. -/
def keys (m : Entries α) : List String := m.map Prod.fst

/-- Representation invariant of a Go map: no key occurs twice. -/
def WF (m : Entries α) : Prop := (keys m).Nodup

instance (m : Entries α) : Decidable (WF m) := by
  unfold WF; infer_instance

end Entries

/-- Go map value that may be nil: `none` is the nil map. -/
abbrev GoMap (α : Type) := Option (Entries α)

namespace GoMap

variable {α : Type}

/-- Entries seen by reads and by `range`: a nil map behaves as an empty one. -/
def entries : GoMap α → Entries α
  | none => []
  | some m => m

/-- Map read on a possibly nil map. -/
def get? (m : GoMap α) (key : String) : Option α := Entries.get? (entries m) key

/-- Builtin `len(m)`. -/
def len (m : GoMap α) : Nat := (entries m).length

/-- Map write `m[key] = v`; writing into the nil map panics (`none`). -/
def assign : GoMap α → String → α → Option (GoMap α)
  | none, _, _ => none
  | some m, key, v => some (some (Entries.set m key v))

/-- Builtin `delete(m, key)`; a no-op on the nil map. -/
def delete : GoMap α → String → GoMap α
  | none, _ => none
  | some m, key => some (Entries.delete m key)

end GoMap

/-- Order in which a `range` loop visits a map: Go leaves it unspecified, so a
loop site may see any permutation of the entries. -/
structure RangeOrder where
  /-- Visiting order chosen at loop site `site` for map `m`. -/
  run : {α : Type} → Nat → Entries α → Entries α
  /-- Every entry is visited exactly once. -/
  perm : ∀ {α : Type} (site : Nat) (m : Entries α), (run site m).Perm m

/-- The order that visits entries as they are laid out in the representation. -/
def RangeOrder.inOrder : RangeOrder where
  run := fun _ m => m
  perm := fun _ _ => List.Perm.refl _

/-- The order that visits entries back to front. -/
def RangeOrder.reversed : RangeOrder where
  run := fun _ m => m.reverse
  perm := fun _ m => List.reverse_perm m

/-! ## Index sets -/

/-- Modelled from the spec: the `IndexSet` type declaration is not among the
sources. The fields are the ones `mock_index_set.go` reads and writes (`Id`,
`IndexPrefix`, `Writable`, `Default`) together with the scalar fields named in
the field lists of `handleCreateIndexSet`. -/
structure IndexSet where
  Id : String := ""
  Title : String := ""
  Description : String := ""
  IndexPrefix : String := ""
  Shards : Int := 0
  Replicas : Int := 0
  RotationStrategyClass : String := ""
  RetentionStrategyClass : String := ""
  CreationDate : String := ""
  IndexAnalyzer : String := ""
  IndexOptimizationMaxNumSegments : Int := 0
  IndexOptimizationDisabled : Bool := false
  Writable : Bool := false
  Default : Bool := false
  deriving DecidableEq, Repr

/-- The struct validators `CreateValidator` and `UpdateValidator` are declared
outside the sources; `Struct` is taken as a function returning the validation
error, `none` when the record passes. -/
structure Validators where
  CreateValidator : IndexSet → Option String
  UpdateValidator : IndexSet → Option String

/-- The part of `MockServer` that `mock_index_set.go` uses. -/
structure MockServer where
  indexSets : GoMap IndexSet
  deriving DecidableEq, Repr

/-- Server whose index-set map is initialised and empty. -/
def MockServer.empty : MockServer := { indexSets := some [] }

/-- Go `fmt.Errorf` text of the index-prefix conflict. -/
def conflictMsg (p : String) : String :=
  "Index prefix \"" ++ p ++ "\" would conflict with an existing index set!"

/-- Go `HasIndexSet`. -/
def HasIndexSet (ms : MockServer) (id : String) : Bool :=
  (ms.indexSets.get? id).isSome

/-- Go `GetIndexSet`: the record and the ok flag, as one option. -/
def GetIndexSet (ms : MockServer) (id : String) : Option IndexSet :=
  ms.indexSets.get? id

/-- Go `AddIndexSet`. `newId` is the value `randStringBytesMaskImprSrc(24)` returns
for this call. Result: `(record, status, error)` and the server afterwards. -/
def AddIndexSet (V : Validators) (newId : String) (ms : MockServer) (indexSet : IndexSet) :
    Option ((Option IndexSet × Int × Option String) × MockServer) :=
  match V.CreateValidator indexSet with
  | some err => some ((none, 400, some err), ms)
  | none =>
    if ms.indexSets.entries.any (fun e => decide (e.2.IndexPrefix = indexSet.IndexPrefix)) then
      some ((none, 400, some (conflictMsg indexSet.IndexPrefix)), ms)
    else
      let s : IndexSet := { indexSet with Id := newId }
      match ms.indexSets.assign s.Id s with
      | none => none
      | some m => some ((some s, 200, none), { ms with indexSets := m })

/-- Go `UpdateIndexSet`. Result: `(status, error)` and the server afterwards. -/
def UpdateIndexSet (V : Validators) (ms : MockServer) (indexSet : IndexSet) :
    Option ((Int × Option String) × MockServer) :=
  if !HasIndexSet ms indexSet.Id then
    some ((404, some ("No indexSet found with id " ++ indexSet.Id)), ms)
  else
    match V.UpdateValidator indexSet with
    | some err => some ((400, some err), ms)
    | none =>
      if ms.indexSets.entries.any (fun e =>
          decide (e.2.IndexPrefix = indexSet.IndexPrefix) && decide (e.2.Id ≠ indexSet.Id)) then
        some ((400, some (conflictMsg indexSet.IndexPrefix)), ms)
      else
        match ms.indexSets.assign indexSet.Id indexSet with
        | none => none
        | some m => some ((200, none), { ms with indexSets := m })

/-- Go `DeleteIndexSet`. Result: `(status, error)` and the server afterwards. -/
def DeleteIndexSet (ms : MockServer) (id : String) : (Int × Option String) × MockServer :=
  if !HasIndexSet ms id then
    ((404, some "The indexSet is not found"), ms)
  else
    ((200, none), { ms with indexSets := ms.indexSets.delete id })

/-! ## HTTP handlers of the index-set resource -/

/-- One call on the `http.ResponseWriter`. -/
inductive Write where
  | header (code : Int)
  | body (text : String)
  deriving DecidableEq, Repr

/-- Go `write500Error`. -/
def write500Error : List Write :=
  [Write.header 500, Write.body "\x7b\"message\":\"500 Internal Server Error\"\x7d"]

/-- Go `writeOr500Error`; `marshalled` is the outcome of `json.Marshal(v)`, `none` on error. -/
def writeOr500Error (marshalled : Option String) : List Write :=
  match marshalled with
  | none => write500Error
  | some b => [Write.body b]

/-- Go `writeApiError`; `text` is `fmt.Sprintf(msg, args...)`. -/
def writeApiError (code : Int) (text : String) : List Write :=
  [Write.header code,
   Write.body ("\x7b\"type\": \"ApiError\", \"message\": \"" ++ text ++ "\"\x7d")]

/-- The loop of `handleSetDefaultIndexSet`: visiting the entries in the order
`visit`, the first record with `Default` set is stored back with the flag
cleared and the loop breaks. -/
def clearFirstDefault : List (String × IndexSet) → Entries IndexSet → Entries IndexSet
  | [], m => m
  | (k, v) :: rest, m =>
    if v.Default then Entries.set m k { v with Default := false }
    else clearFirstDefault rest m

/-- Go `handleSetDefaultIndexSet` for the path parameter `id`. `handleInit` and
`safeSave` (logging and persistence, outside the sources) do not touch the
index-set map and are left out; `marshal` is `json.Marshal` on an index set.
Result: the server afterwards and the writes to the response. -/
def handleSetDefaultIndexSet (ρ : RangeOrder) (V : Validators)
    (marshal : IndexSet → Option String) (newId : String) (ms : MockServer) (id : String) :
    Option (MockServer × List Write) :=
  match GetIndexSet ms id with
  | none => some (ms, writeApiError 404 ("No indexSet found with id " ++ id))
  | some indexSet =>
    if !indexSet.Writable then
      some (ms, writeApiError 409 "Default index set must be writable.")
    else
      let ms1 : MockServer :=
        { ms with indexSets := ms.indexSets.map (fun m => clearFirstDefault (ρ.run 0 m) m) }
      let indexSet1 : IndexSet := { indexSet with Default := true }
      match AddIndexSet V newId ms1 indexSet1 with
      | none => none
      | some (_, ms2) => some (ms2, writeOr500Error (marshal indexSet1))

/-- Number of records of the store whose `Default` flag is set. -/
def defaultCount (ms : MockServer) : Nat :=
  (ms.indexSets.entries.filter (fun e => e.2.Default)).length

/-! ## Request-body validation (`util.go`) -/

/-- Value that `json.Unmarshal` stores into an `interface{}`: nil, bool, number,
string, slice, or `map[string]interface{}`. -/
inductive JsonValue where
  | null
  | bool (b : Bool)
  | number (q : ℚ)
  | string (s : String)
  | array (xs : List JsonValue)
  | object (m : List (String × JsonValue))

/-- Go `makeHash`: the set of the strings of `arr`, as a map to nil values. A nil
slice and an empty slice both give the empty map. -/
def makeHash (arr : List String) : Entries JsonValue :=
  arr.foldl (fun h k => Entries.set h k JsonValue.null) []

/-- The loops `for k, _ := range src { dst[k] = nil }`, visiting `src` in the order `visit`. -/
def addKeys (visit : Entries JsonValue) (dst : Entries JsonValue) : Entries JsonValue :=
  visit.foldl (fun h e => Entries.set h e.1 JsonValue.null) dst

/-- The loop `for k, _ := range body { if _, ok := acf[k]; !ok { delete(body, k) } }`,
visiting `body` in the order `visit`. -/
def dropUnaccepted (visit : Entries JsonValue) (acf body : Entries JsonValue) :
    Entries JsonValue :=
  visit.foldl (fun m e => if Entries.has acf e.1 then m else Entries.delete m e.1) body

/-- Go `validateRequestBody`. `unmarshal` is `json.Unmarshal` into an `interface{}`
(an error text or the decoded value); `ρ` gives the visiting order of each of
the seven `range` loops, numbered in source order. Result: status, message and
the decoded object (`none` is the nil map). -/
def validateRequestBody (ρ : RangeOrder) (unmarshal : String → Except String JsonValue)
    (b : String) (requiredFields allowedFields acceptedFields : List String) :
    Int × String × GoMap JsonValue :=
  match unmarshal b with
  | Except.error err =>
    (400, "Failed to parse the request body as JSON: " ++ b ++ " (" ++ err ++ ")", none)
  | Except.ok (JsonValue.object body) =>
    let rqf := makeHash requiredFields
    match (ρ.run 0 rqf).find? (fun e => !Entries.has body e.1) with
    | some e => (400, "In the request body the field " ++ e.1 ++ " is required", some body)
    | none =>
      let alf := makeHash allowedFields
      let alf1 := if alf.length ≠ 0 then addKeys (ρ.run 1 rqf) alf else alf
      let arr := (ρ.run 2 alf1).map Prod.fst
      let invalid :=
        if alf.length ≠ 0 then (ρ.run 3 body).find? (fun e => !Entries.has alf1 e.1) else none
      match invalid with
      | some e =>
        (400, "In the request body an invalid field is found: " ++ e.1 ++
          "\nThe allowed fields: " ++ ", ".intercalate arr ++ ", request body: " ++ b,
         some body)
      | none =>
        let acf := makeHash acceptedFields
        if acf.length ≠ 0 then
          let acf1 := addKeys (ρ.run 5 alf1) (addKeys (ρ.run 4 rqf) acf)
          (200, "", some (dropUnaccepted (ρ.run 6 body) acf1 body))
        else
          (200, "", some body)
  | Except.ok _ =>
    (400, "Failed to parse the request body as a JSON object : " ++ b, none)

/-! ## Runs of store operations and sample data -/

/-- Successive `AddIndexSet` calls, one per element: the record to add and the
identifier generated for that call. The server is threaded through; `none` if
a call panics. -/
def addAll (V : Validators) : List (IndexSet × String) → MockServer → Option MockServer
  | [], ms => some ms
  | (indexSet, newId) :: rest, ms =>
    match AddIndexSet V newId ms indexSet with
    | none => none
    | some (_, ms1) => addAll V rest ms1

/-- Servers that the three store operations can build from the empty server,
whatever the records, the generated identifiers and the outcomes of the calls. -/
inductive Reachable (V : Validators) : MockServer → Prop where
  | empty : Reachable V MockServer.empty
  | add {ms ms1 : MockServer} (newId : String) (indexSet : IndexSet)
      (res : Option IndexSet × Int × Option String) :
      Reachable V ms → AddIndexSet V newId ms indexSet = some (res, ms1) → Reachable V ms1
  | update {ms ms1 : MockServer} (indexSet : IndexSet) (res : Int × Option String) :
      Reachable V ms → UpdateIndexSet V ms indexSet = some (res, ms1) → Reachable V ms1
  | delete {ms : MockServer} (id : String) :
      Reachable V ms → Reachable V (DeleteIndexSet ms id).2

/-- Every record of the store sits under its own identifier. -/
def KeyedById (ms : MockServer) : Prop :=
  ∀ e ∈ ms.indexSets.entries, e.2.Id = e.1

instance (ms : MockServer) : Decidable (KeyedById ms) := by
  unfold KeyedById; infer_instance

/-- Validators that accept every record. -/
def acceptAll : Validators :=
  { CreateValidator := fun _ => none, UpdateValidator := fun _ => none }

/-- Validators that reject every record. -/
def rejectAll : Validators :=
  { CreateValidator := fun _ => some "invalid", UpdateValidator := fun _ => some "invalid" }

/-- Sample record: writable, the current default. -/
def sampleA : IndexSet :=
  { Id := "a", Title := "A", IndexPrefix := "graylog", Writable := true, Default := true }

/-- Sample record: writable, not the default. -/
def sampleB : IndexSet :=
  { Id := "b", Title := "B", IndexPrefix := "audit", Writable := true }

/-- Sample server holding `sampleA` and `sampleB` under their identifiers. -/
def sampleServer : MockServer :=
  { indexSets := some [("a", sampleA), ("b", sampleB)] }

/-- Request body with the key `title` only. -/
def bodyTitle : String := "\x7b\"title\":\"t\"\x7d"

/-- Request body with the keys `title` and `extra`. -/
def bodyTitleExtra : String := "\x7b\"title\":\"t\",\"extra\":\"x\"\x7d"

/-- Request body with the keys `title`, `extra` and `junk`. -/
def bodyTitleExtraJunk : String :=
  "\x7b\"title\":\"t\",\"extra\":\"x\",\"junk\":null\x7d"

/-- Request body with the key `extra` only. -/
def bodyExtra : String := "\x7b\"extra\":\"x\"\x7d"

/-- What `json.Unmarshal` gives on the sample bodies; any other input is
reported as a syntax error. -/
def sampleUnmarshal (b : String) : Except String JsonValue :=
  if b = bodyTitle then
    Except.ok (JsonValue.object [("title", JsonValue.string "t")])
  else if b = bodyTitleExtra then
    Except.ok (JsonValue.object [("title", JsonValue.string "t"), ("extra", JsonValue.string "x")])
  else if b = bodyTitleExtraJunk then
    Except.ok (JsonValue.object
      [("title", JsonValue.string "t"), ("extra", JsonValue.string "x"), ("junk", JsonValue.null)])
  else if b = bodyExtra then
    Except.ok (JsonValue.object [("extra", JsonValue.string "x")])
  else
    Except.error "invalid character"

/-! ## Slices -/

/-- Builtin `make([]T, n)`: a slice of `n` zero values; a negative length
panics. A Go slice is a list, the nil slice being the empty list. -/
def makeSlice {α : Type} [Inhabited α] (n : Int) : Option (List α) :=
  if n < 0 then none else some (List.replicate n.toNat default)

/-- The loops `i := 0; for _, a := range m { arr[i] = a; i++; ... }` over the
entries in the order `visit`: `stop` is the test that breaks the loop after the
increment, and a write at an index outside `arr` panics. -/
def fillLoop {α : Type} (stop : Nat → Bool) :
    List (String × α) → List α → Nat → Option (List α)
  | [], arr, _ => some arr
  | (_, a) :: rest, arr, i =>
    if i < arr.length then
      if stop (i + 1) then some (arr.set i a)
      else fillLoop stop rest (arr.set i a) (i + 1)
    else none

/-! ## Alerts (`mockserver/store/plain`, `mockserver/logic`) -/

/-- The part of the plain `Store` that `GetAlerts` reads. The `Alert` type is
declared outside the sources and is a parameter. -/
structure Store (Alert : Type) where
  alerts : GoMap Alert

/-- Method `GetAlerts` of the plain store: the alerts, the total and the error;
the outer `none` is a run-time panic. The read lock is not modelled. -/
def Store.GetAlerts {Alert : Type} [Inhabited Alert] (ρ : RangeOrder) (store : Store Alert)
    (_since limit : Int) : Option (List Alert × Int × Option String) :=
  let size : Int := store.alerts.len
  if size = 0 then some ([], 0, none)
  else
    let limit1 : Int := if limit > size then size else limit
    match makeSlice limit1 with
    | none => none
    | some arr =>
      match fillLoop (fun i => decide ((i : Int) = limit1))
          (ρ.run 0 store.alerts.entries) arr 0 with
      | none => none
      | some arr1 => some (arr1, limit1, none)

/-- The part of `Logic` that `GetAlerts` uses. -/
structure Logic (Alert : Type) where
  store : Store Alert

/-- Method `GetAlerts` of the logic layer: the alerts, the total, the status
code and the error; the outer `none` is a panic of the store call. -/
def Logic.GetAlerts {Alert : Type} [Inhabited Alert] (ρ : RangeOrder) (lgc : Logic Alert)
    (since limit : Int) : Option (List Alert × Int × Int × Option String) :=
  match lgc.store.GetAlerts ρ since limit with
  | none => none
  | some (_, _, some err) => some ([], 0, 500, some err)
  | some (arr, total, none) => some (arr, total, 200, none)

/-! ## Listing index sets and role members -/

/-- Zero value of `IndexSet`. -/
instance : Inhabited IndexSet := ⟨{}⟩

/-- Method `IndexSetList`: the list and the server afterwards; the outer
`none` is a run-time panic. -/
def IndexSetList (ρ : RangeOrder) (ms : MockServer) : Option (List IndexSet × MockServer) :=
  match ms.indexSets with
  | none => some ([], ms)
  | some m =>
    match makeSlice (m.length : Int) with
    | none => none
    | some arr =>
      match fillLoop (fun _ => false) (ρ.run 0 m) arr 0 with
      | none => none
      | some arr1 => some (arr1, ms)

/-- Function `addToStringArray`. -/
def addToStringArray (arr : List String) (val : String) : List String :=
  if arr.any (fun v => decide (v = val)) then arr else arr ++ [val]

/-- Function `removeFromStringArray`. -/
def removeFromStringArray (arr : List String) (val : String) : List String :=
  arr.foldl (fun ret v => if v ≠ val then ret ++ [v] else ret) []

/-- Store with three alerts. -/
def threeAlerts : Store String :=
  { alerts := some [("1", "disk"), ("2", "cpu"), ("3", "net")] }

/-- Store with no alert. -/
def noAlerts : Store String := { alerts := some [] }

/-! ## The authenticating wrapper (`mockserver/handler`) -/

/-- Modelled from the spec: `NewAPIError` and its type are not among the
sources; the error body has a `type` field holding `ApiError` and a `message`
field holding the error text. -/
structure APIError where
  Typ : String
  Message : String
  deriving DecidableEq, Repr

/-- Modelled from the spec: constructor of the error body for an error text. -/
def NewAPIError (msg : String) : APIError := { Typ := "ApiError", Message := msg }

/-- What `wrapHandle` does to the response and to the bound handler, in order;
`panic` is a run-time panic, which ends the run. `U` is the type of users. -/
inductive Effect (U : Type) where
  | setHeader (key value : String)
  | writeHeader (code : Int)
  | write (body : String)
  | invoke (user : Option U)
  | panic
  deriving DecidableEq, Repr

/-- Lines 59 to 82 of `wrapHandle`: the handler is called with `user`; its
result `(body, sc, err)` is written as an error body, as nothing, as the JSON
of the payload or as the fixed 500 body. `marshalAPIError` and `marshal` are
`json.Marshal` on an `APIError` and on a payload. -/
def invokeAndRespond {U P : Type} (marshalAPIError : APIError → Except String String)
    (marshal : P → Except String String)
    (handler : Option U → Option P × Int × Option String) (user : Option U) :
    List (Effect U) :=
  Effect.invoke user ::
    match handler user with
    | (_, sc, some err) =>
      match marshalAPIError (NewAPIError err) with
      | Except.error _ =>
        [Effect.writeHeader sc,
         Effect.write "\x7b\"message\":\"failed to marshal an APIError\"\x7d"]
      | Except.ok b => [Effect.writeHeader sc, Effect.write b]
    | (none, _, none) => []
    | (some body, _, none) =>
      match marshal body with
      | Except.ok b => [Effect.write b]
      | Except.error _ =>
        [Effect.writeHeader 500,
         Effect.write "\x7b\"message\":\"500 Internal Server Error\"\x7d"]

/-- The handler returned by `wrapHandle`, run on one request. `auth` is
`lgc.Auth()`, `Authenticate` is `lgc.Authenticate`, `basicAuth` is what
`r.BasicAuth()` returns (`none` when the header is not set). Of the logging
only the read of `user.Username` at lines 53 to 56 is kept: it panics when
`Authenticate` returns a nil user without an error. Result: the calls made on
the response writer and on the bound handler. -/
def wrapHandle {U P : Type} (auth : Bool)
    (Authenticate : String → String → Option U × Int × Option String)
    (marshalAPIError : APIError → Except String String)
    (marshal : P → Except String String)
    (handler : Option U → Option P × Int × Option String)
    (basicAuth : Option (String × String)) : List (Effect U) :=
  Effect.setHeader "Content-Type" "application/json" ::
    if auth then
      match basicAuth with
      | none => [Effect.writeHeader 401]
      | some (authName, authPass) =>
        match Authenticate authName authPass with
        | (_, sc, some err) =>
          if sc = 401 then [Effect.writeHeader sc]
          else
            match marshalAPIError (NewAPIError err) with
            | Except.error _ =>
              [Effect.writeHeader sc,
               Effect.write "\x7b\"message\":\"failed to authenticate\"\x7d"]
            | Except.ok b => [Effect.writeHeader sc, Effect.write b]
        | (none, _, none) => [Effect.panic]
        | (some u, _, none) => invokeAndRespond marshalAPIError marshal handler (some u)
    else invokeAndRespond marshalAPIError marshal handler none

/-- The bound handler is reached and gets `user`: authentication is off and
`user` is nil, or the request carries credentials for which `Authenticate`
returns the user `u` without error, and `user` is `u`. -/
def Invokes {U : Type} (auth : Bool)
    (Authenticate : String → String → Option U × Int × Option String)
    (basicAuth : Option (String × String)) (user : Option U) : Prop :=
  (auth = false ∧ user = none) ∨
  (auth = true ∧ ∃ name pass sc u, basicAuth = some (name, pass) ∧
    Authenticate name pass = (some u, sc, none) ∧ user = some u)

/-- Status line that `net/http` sends for a sequence of calls: the code of the
first `WriteHeader`, or 200 when a `Write` comes first or nothing is written. -/
def statusOf {U : Type} : List (Effect U) → Int
  | [] => 200
  | Effect.writeHeader code :: _ => code
  | Effect.write _ :: _ => 200
  | _ :: rest => statusOf rest

/-- Bodies written, in order. -/
def bodiesOf {U : Type} : List (Effect U) → List String
  | [] => []
  | Effect.write b :: rest => b :: bodiesOf rest
  | _ :: rest => bodiesOf rest

/-- Whether the bound handler was called. -/
def invoked {U : Type} : List (Effect U) → Bool
  | [] => false
  | Effect.invoke _ :: _ => true
  | _ :: rest => invoked rest

/-- Sample `Authenticate`: `admin` with `password` is the user `admin`; a
broken user lookup for `ghost`; anything else is refused. -/
def sampleAuthenticate (name pass : String) : Option String × Int × Option String :=
  if name = "admin" ∧ pass = "password" then (some "admin", 200, none)
  else if name = "ghost" then (none, 500, some "user lookup failed")
  else (none, 401, some "authentication failed")

/-- Sample `json.Marshal` on an `APIError`, for texts that need no escaping. -/
def sampleMarshalAPIError (ae : APIError) : Except String String :=
  Except.ok ("\x7b\"type\":\"" ++ ae.Typ ++ "\",\"message\":\"" ++ ae.Message ++ "\"\x7d")

/-- Sample `json.Marshal` on a payload: a payload is its own JSON text, except
`cyclic`, which cannot be serialized. -/
def sampleMarshal (p : String) : Except String String :=
  if p = "cyclic" then Except.error "unsupported value" else Except.ok p

/-- Sample handler: fails with 404 for the user `admin`, else returns a payload
together with status 201. -/
def sampleHandler (user : Option String) : Option String × Int × Option String :=
  if user = some "admin" then (some "ignored", 404, some "no such stream")
  else (some "[1,2]", 201, none)

/-! ## Identifier generator (`util.go`) -/

/-- Constant `letterBytes`. -/
def letterBytes : String := "abcdefghijklmnopqrstuvwxyzABCDEFGHIJKLMNOPQRSTUVWXYZ"

/-- Constant `letterIdxBits`: 6 bits to represent a letter index. -/
def letterIdxBits : Nat := 6

/-- Constant `letterIdxMask`: all 1-bits, as many as `letterIdxBits`. -/
def letterIdxMask : Nat := (1 <<< letterIdxBits) - 1

/-- Constant `letterIdxMax`: number of letter indices fitting in 63 bits. -/
def letterIdxMax : Nat := 63 / letterIdxBits

/-- The random source `src`: the stream of values it will produce and how many
have been drawn. -/
structure RandSource where
  values : Nat → Nat
  pos : Nat

/-- Method `Int63` of the source: the next value as a non-negative 63-bit
integer, and the source afterwards. -/
def RandSource.Int63 (src : RandSource) : Nat × RandSource :=
  (src.values src.pos % 2 ^ 63, { src with pos := src.pos + 1 })

/-- The loop of `randStringBytesMaskImprSrc`, one test of `i >= 0` per unit of
fuel: `none` when the fuel runs out before the loop ends. -/
def randLoop : Nat → RandSource → Int → Nat → Nat → List Char →
    Option (List Char × RandSource)
  | 0, _, _, _, _, _ => none
  | fuel + 1, src, i, cache, remain, b =>
    if 0 ≤ i then
      let refill := if remain = 0 then (src.Int63.1, letterIdxMax, src.Int63.2)
        else (cache, remain, src)
      let idx := refill.1 &&& letterIdxMask
      if idx < letterBytes.length then
        randLoop fuel refill.2.2 (i - 1) (refill.1 >>> letterIdxBits) (refill.2.1 - 1)
          (b.set i.toNat (letterBytes.data.getD idx default))
      else
        randLoop fuel refill.2.2 i (refill.1 >>> letterIdxBits) (refill.2.1 - 1) b
    else some (b, src)

/-- Builtin `make([]byte, n)`: `n` zero bytes; a negative length panics. -/
def makeBytes (n : Int) : Option (List Char) :=
  if n < 0 then none else some (List.replicate n.toNat (Char.ofNat 0))

/-- Function `randStringBytesMaskImprSrc` on the source `src`, with `fuel`
bounding the number of loop tests. Result: the string and the source
afterwards; `none` when `make` panics (negative `n`) or the fuel runs out. -/
def randStringBytesMaskImprSrc (fuel : Nat) (src : RandSource) (n : Int) :
    Option (String × RandSource) :=
  match makeBytes n with
  | none => none
  | some b =>
    match randLoop fuel src.Int63.2 (n - 1) src.Int63.1 letterIdxMax b with
    | none => none
    | some (b1, src1) => some (String.mk b1, src1)

/-- Source that produces `v` at every draw. The value 127 used in the examples
has the 6-bit groups 63, 1 and then zeros. -/
def constSource (v : Nat) : RandSource := { values := fun _ => v, pos := 0 }

/-- The `r` low 6-bit groups of `cache`, lowest first: what the loop reads from
the cache before it draws again. -/
def pendingGroups (cache : Nat) : Nat → List Nat
  | 0 => []
  | r + 1 => (cache &&& letterIdxMask) :: pendingGroups (cache >>> letterIdxBits) r

/-- The 6-bit groups of the `q` values drawn from position `pos` on,
`letterIdxMax` per value, in the order the loop reads them. -/
def groupStream (values : Nat → Nat) (pos : Nat) : Nat → List Nat
  | 0 => []
  | q + 1 =>
    pendingGroups (values pos % 2 ^ 63) letterIdxMax ++ groupStream values (pos + 1) q

/-- A group that indexes a letter. -/
def validGroup (g : Nat) : Bool := decide (g < letterBytes.length)

/-- The letter a group indexes. -/
def letterOf (g : Nat) : Char := letterBytes.data.getD g default

/-- Letters of the first `k` valid groups of a sequence of groups; the groups
that are not valid are skipped. -/
def lettersOf (groups : List Nat) (k : Nat) : List Char :=
  ((groups.filter validGroup).take k).map letterOf

/-! ## Reading back an error body -/

/-- The double-quote character. -/
def quoteChar : Char := Char.ofNat 34

/-- The backslash character. -/
def backslashChar : Char := Char.ofNat 92

/-- Value of a hexadecimal digit. -/
def hexVal (c : Char) : Option Nat :=
  if 48 ≤ c.toNat ∧ c.toNat ≤ 57 then some (c.toNat - 48)
  else if 97 ≤ c.toNat ∧ c.toNat ≤ 102 then some (c.toNat - 87)
  else if 65 ≤ c.toNat ∧ c.toNat ≤ 70 then some (c.toNat - 55)
  else none

/-- Character denoted by the letter after a backslash in a JSON string, for the
two-character escapes. -/
def unescape (e : Char) : Option Char :=
  if e = quoteChar then some quoteChar
  else if e = backslashChar then some backslashChar
  else if e = '/' then some '/'
  else if e = 'b' then some (Char.ofNat 8)
  else if e = 'f' then some (Char.ofNat 12)
  else if e = 'n' then some (Char.ofNat 10)
  else if e = 'r' then some (Char.ofNat 13)
  else if e = 't' then some (Char.ofNat 9)
  else none

/-- Rest of a JSON string after its opening quote: the decoded characters up
to the closing quote and the text after it. Control characters, unknown
escapes and a missing closing quote are errors. -/
def jsonStringBody : List Char → Option (List Char × List Char)
  | [] => none
  | c :: rest =>
    if c = quoteChar then some ([], rest)
    else if c = backslashChar then
      match rest with
      | [] => none
      | e :: rest1 =>
        if e = 'u' then
          match rest1 with
          | h1 :: h2 :: h3 :: h4 :: rest2 =>
            match hexVal h1, hexVal h2, hexVal h3, hexVal h4 with
            | some a, some b, some c1, some d =>
              (jsonStringBody rest2).map
                (fun r => (Char.ofNat (((a * 16 + b) * 16 + c1) * 16 + d) :: r.1, r.2))
            | _, _, _, _ => none
          | _ => none
        else
          match unescape e with
          | none => none
          | some d => (jsonStringBody rest1).map (fun r => (d :: r.1, r.2))
    else if c.toNat < 32 then none
    else (jsonStringBody rest).map (fun r => (c :: r.1, r.2))

/-- A JSON string at the head of the text: its value and the text after it. -/
def jsonString : List Char → Option (String × List Char)
  | [] => none
  | c :: rest =>
    if c = quoteChar then (jsonStringBody rest).map (fun r => (String.mk r.1, r.2)) else none

/-- Skips JSON whitespace: space, tab, line feed, carriage return. -/
def skipWs : List Char → List Char
  | [] => []
  | c :: rest =>
    if c.toNat = 32 ∨ c.toNat = 9 ∨ c.toNat = 10 ∨ c.toNat = 13 then skipWs rest
    else c :: rest

/-- Skips whitespace and then the character `c`, which must be there. -/
def expectChar (c : Char) (cs : List Char) : Option (List Char) :=
  match skipWs cs with
  | [] => none
  | d :: rest => if d = c then some rest else none

/-- Reads a JSON text that is an object with the two string members `type` and
`message`, in this order, as `writeApiError` lays it out; `none` when the text
is not such a JSON text. -/
def decodeAPIError (body : String) : Option APIError :=
  match expectChar (Char.ofNat 123) body.data with
  | none => none
  | some cs1 =>
    match jsonString (skipWs cs1) with
    | none => none
    | some (k1, cs2) =>
      match expectChar ':' cs2 with
      | none => none
      | some cs3 =>
        match jsonString (skipWs cs3) with
        | none => none
        | some (v1, cs4) =>
          match expectChar ',' cs4 with
          | none => none
          | some cs5 =>
            match jsonString (skipWs cs5) with
            | none => none
            | some (k2, cs6) =>
              match expectChar ':' cs6 with
              | none => none
              | some cs7 =>
                match jsonString (skipWs cs7) with
                | none => none
                | some (v2, cs8) =>
                  match expectChar (Char.ofNat 125) cs8 with
                  | none => none
                  | some cs9 =>
                    if skipWs cs9 = [] ∧ k1 = "type" ∧ k2 = "message" then
                      some { Typ := v1, Message := v2 }
                    else none

/-- Bodies written, in order. -/
def writtenBodies : List Write → List String
  | [] => []
  | Write.body text :: rest => text :: writtenBodies rest
  | Write.header _ :: rest => writtenBodies rest

/-- Server obtained from `sampleServer` by giving `b` a new title and deleting `a`. -/
def sampleServerAfter : MockServer :=
  { indexSets := some [("b", { sampleB with Title := "B2" })] }

/-! # Properties -/

/-! ## Facts about the map representation -/

namespace Entries

variable {α : Type}

theorem get?_mem {m : Entries α} {k : String} {v : α} (h : get? m k = some v) :
    (k, v) ∈ m := by
  induction m with
  | nil => simp [get?] at h
  | cons e m ih =>
    obtain ⟨k0, v0⟩ := e
    by_cases hk : k0 = k
    · simp [get?, hk] at h
      simp [hk, h]
    · simp [get?, hk] at h
      exact List.mem_cons_of_mem _ (ih h)

theorem mem_get? {m : Entries α} (hwf : WF m) {k : String} {v : α} (h : (k, v) ∈ m) :
    get? m k = some v := by
  induction m with
  | nil => simp at h
  | cons e m ih =>
    obtain ⟨k0, v0⟩ := e
    have hnd : k0 ∉ keys m ∧ WF m := by
      simpa [WF, keys] using hwf
    rcases List.mem_cons.mp h with h | h
    · cases h
      simp [get?]
    · have hne : k0 ≠ k := by
        intro he
        apply hnd.1
        subst he
        exact List.mem_map_of_mem Prod.fst h
      simp [get?, hne, ih hnd.2 h]

theorem has_iff_mem_keys (m : Entries α) (k : String) : has m k = true ↔ k ∈ keys m := by
  induction m with
  | nil => simp [has, get?, keys]
  | cons e m ih =>
    obtain ⟨k0, v0⟩ := e
    by_cases hk : k0 = k
    · simp [has, get?, keys, hk]
    · have : has m k = true ↔ k ∈ keys m := ih
      simp only [has, keys] at this
      simp [has, get?, keys, hk, this, Ne.symm hk]

theorem get?_set_self (m : Entries α) (k : String) (v : α) : get? (set m k v) k = some v := by
  induction m with
  | nil => simp [set, get?]
  | cons e m ih =>
    obtain ⟨k0, v0⟩ := e
    by_cases hk : k0 = k
    · simp [set, get?, hk]
    · simp [set, get?, hk, ih]

theorem get?_set_ne (m : Entries α) {k k' : String} (v : α) (h : k' ≠ k) :
    get? (set m k v) k' = get? m k' := by
  induction m with
  | nil => simp [set, get?, Ne.symm h]
  | cons e m ih =>
    obtain ⟨k0, v0⟩ := e
    by_cases hk : k0 = k
    · subst hk
      simp [set, get?, Ne.symm h]
    · by_cases hk' : k0 = k'
      · subst hk'
        simp [set, get?, hk]
      · simp [set, get?, hk, hk', ih]

theorem length_set_of_has (m : Entries α) (k : String) (v : α) (h : has m k = true) :
    (set m k v).length = m.length := by
  induction m with
  | nil => simp [has, get?] at h
  | cons e m ih =>
    obtain ⟨k0, v0⟩ := e
    by_cases hk : k0 = k
    · simp [set, hk]
    · have h' : has m k = true := by simpa [has, get?, hk] using h
      simp [set, hk, ih h']

theorem keys_set_of_has (m : Entries α) (k : String) (v : α) (h : has m k = true) :
    keys (set m k v) = keys m := by
  induction m with
  | nil => simp [has, get?] at h
  | cons e m ih =>
    obtain ⟨k0, v0⟩ := e
    by_cases hk : k0 = k
    · simp [set, keys, hk]
    · have h' : has m k = true := by simpa [has, get?, hk] using h
      have := ih h'
      simp only [keys] at this
      simp [set, keys, hk, this]

theorem mem_keys_set (m : Entries α) (k : String) (v : α) (k' : String) :
    k' ∈ keys (set m k v) ↔ k' = k ∨ k' ∈ keys m := by
  rw [← has_iff_mem_keys, ← has_iff_mem_keys]
  by_cases h : k' = k
  · subst h
    simp [has, get?_set_self]
  · simp [has, get?_set_ne m v h, h]

theorem WF_set {m : Entries α} (hwf : WF m) (k : String) (v : α) : WF (set m k v) := by
  induction m with
  | nil => simp [set, WF, keys]
  | cons e m ih =>
    obtain ⟨k0, v0⟩ := e
    have hnd : k0 ∉ keys m ∧ WF m := by
      simpa [WF, keys] using hwf
    by_cases hk : k0 = k
    · subst hk
      simpa [set, WF, keys] using hwf
    · have h1 : k0 ∉ keys (set m k v) := by
        rw [mem_keys_set]
        simp [hk, hnd.1]
      have h2 : WF (set m k v) := ih hnd.2
      simp only [WF, keys] at h1 h2 ⊢
      simp [set, hk, h1, h2]

theorem get?_delete (m : Entries α) (k k' : String) :
    get? (delete m k) k' = if k' = k then none else get? m k' := by
  induction m with
  | nil => simp [delete, get?]
  | cons e m ih =>
    obtain ⟨k0, v0⟩ := e
    simp only [delete] at ih
    by_cases hk : k0 = k
    · subst hk
      by_cases hk' : k' = k0
      · simpa [delete, hk'] using ih
      · simpa [delete, get?, hk', Ne.symm hk'] using ih
    · by_cases hk' : k' = k
      · subst hk'
        simpa [delete, hk, get?] using ih
      · by_cases h3 : k0 = k'
        · simp [delete, hk, get?, h3, hk']
        · simpa [delete, hk, get?, h3, hk'] using ih

end Entries

/-! ## Store operations -/

theorem any_of_get? {ms : MockServer} {k : String} {r : IndexSet} (p : String × IndexSet → Bool)
    (h : ms.indexSets.get? k = some r) (hp : p (k, r) = true) :
    ms.indexSets.entries.any p = true :=
  List.any_eq_true.mpr ⟨(k, r), Entries.get?_mem h, hp⟩

theorem AddIndexSet_conflict (V : Validators) (newId : String) (ms : MockServer)
    (indexSet : IndexSet)
    (h : ∃ k r, ms.indexSets.get? k = some r ∧ r.IndexPrefix = indexSet.IndexPrefix) :
    ∃ err, AddIndexSet V newId ms indexSet = some ((none, 400, some err), ms) := by
  obtain ⟨k, r, hget, hp⟩ := h
  unfold AddIndexSet
  cases hv : V.CreateValidator indexSet with
  | some err => exact ⟨err, rfl⟩
  | none =>
    have hany : ms.indexSets.entries.any
        (fun e => decide (e.2.IndexPrefix = indexSet.IndexPrefix)) = true :=
      any_of_get? _ hget (by simp [hp])
    exact ⟨conflictMsg indexSet.IndexPrefix, by simp [hany]⟩

/-! ### Setting the default index set -/

theorem set_clear_count {m : Entries IndexSet} (hwf : Entries.WF m) {k : String} {v : IndexSet}
    (hmem : (k, v) ∈ m) (hd : v.Default = true) :
    ((Entries.set m k { v with Default := false }).filter (fun e => e.2.Default)).length + 1
      = (m.filter (fun e => e.2.Default)).length := by
  induction m with
  | nil => simp at hmem
  | cons e m ih =>
    obtain ⟨k0, v0⟩ := e
    have hnd : k0 ∉ Entries.keys m ∧ Entries.WF m := by
      simpa [Entries.WF, Entries.keys] using hwf
    by_cases hk : k0 = k
    · subst hk
      have hv : v = v0 := by
        rcases List.mem_cons.mp hmem with h | h
        · cases h; rfl
        · exact absurd (List.mem_map_of_mem Prod.fst h) hnd.1
      subst hv
      simp [Entries.set, hd]
    · have hmem' : (k, v) ∈ m := by
        rcases List.mem_cons.mp hmem with h | h
        · cases h; exact absurd rfl hk
        · exact h
      have := ih hnd.2 hmem'
      by_cases hd0 : v0.Default = true
      · simp [Entries.set, hk, hd0, List.filter_cons]
        omega
      · simp [Entries.set, hk, hd0, List.filter_cons]
        omega

theorem clearFirstDefault_count {m : Entries IndexSet} (hwf : Entries.WF m)
    (visit : List (String × IndexSet)) (hsub : ∀ e ∈ visit, e ∈ m)
    (hex : ∃ e ∈ visit, e.2.Default = true) :
    ((clearFirstDefault visit m).filter (fun e => e.2.Default)).length + 1
      = (m.filter (fun e => e.2.Default)).length := by
  induction visit with
  | nil => simp at hex
  | cons e rest ih =>
    obtain ⟨k, v⟩ := e
    by_cases hd : v.Default = true
    · simp only [clearFirstDefault, hd, if_true]
      exact set_clear_count hwf (hsub (k, v) (List.mem_cons_self _ _)) hd
    · simp only [clearFirstDefault, hd]
      apply ih (fun e he => hsub e (List.mem_cons_of_mem _ he))
      obtain ⟨e, he, hed⟩ := hex
      rcases List.mem_cons.mp he with h | h
      · subst h; exact absurd hed hd
      · exact ⟨e, h, hed⟩

theorem clearFirstDefault_get? {m : Entries IndexSet} (hwf : Entries.WF m)
    (visit : List (String × IndexSet)) (hsub : ∀ e ∈ visit, e ∈ m)
    {id : String} {r : IndexSet} (hget : Entries.get? m id = some r) :
    ∃ r1, Entries.get? (clearFirstDefault visit m) id = some r1 ∧
      r1.IndexPrefix = r.IndexPrefix := by
  induction visit with
  | nil => exact ⟨r, hget, rfl⟩
  | cons e rest ih =>
    obtain ⟨k, v⟩ := e
    by_cases hd : v.Default = true
    · simp only [clearFirstDefault, hd, if_true]
      by_cases hk : id = k
      · subst hk
        have hv : Entries.get? m id = some v :=
          Entries.mem_get? hwf (hsub (id, v) (List.mem_cons_self _ _))
        have : v = r := by
          rw [hget] at hv
          exact (Option.some.inj hv).symm
        subst this
        exact ⟨_, Entries.get?_set_self _ _ _, rfl⟩
      · exact ⟨r, by rw [Entries.get?_set_ne _ _ hk]; exact hget, rfl⟩
    · simp only [clearFirstDefault, hd]
      exact ih (fun e he => hsub e (List.mem_cons_of_mem _ he))

/-- Whatever order the loop visits the map in, `handleSetDefaultIndexSet` on an
existing writable record clears one default flag and sets none: from a store
with exactly one default record it ends with no default record. -/
theorem handleSetDefaultIndexSet_defaultCount (ρ : RangeOrder) (V : Validators)
    (marshal : IndexSet → Option String) (newId : String) (ms : MockServer) (id : String)
    (r : IndexSet) (hwf : Entries.WF ms.indexSets.entries)
    (hget : GetIndexSet ms id = some r) (hw : r.Writable = true)
    (hone : defaultCount ms = 1) :
    ∃ ms1, handleSetDefaultIndexSet ρ V marshal newId ms id
        = some (ms1, writeOr500Error (marshal { r with Default := true })) ∧
      defaultCount ms1 = 0 := by
  obtain ⟨im⟩ := ms
  cases im with
  | none => simp [GetIndexSet, GoMap.get?, GoMap.entries, Entries.get?] at hget
  | some m =>
    simp only [GoMap.entries] at hwf
    simp only [GetIndexSet, GoMap.get?, GoMap.entries] at hget
    simp only [defaultCount, GoMap.entries] at hone
    have hsub : ∀ e ∈ ρ.run 0 m, e ∈ m := fun e he => ((ρ.perm 0 m).mem_iff).mp he
    have hex : ∃ e ∈ ρ.run 0 m, e.2.Default = true := by
      have hpos : 0 < (m.filter (fun e => e.2.Default)).length := by omega
      obtain ⟨e, he⟩ := List.exists_mem_of_length_pos hpos
      rw [List.mem_filter] at he
      exact ⟨e, ((ρ.perm 0 m).mem_iff).mpr he.1, he.2⟩
    have hcount := clearFirstDefault_count hwf (ρ.run 0 m) hsub hex
    obtain ⟨r1, hr1, hp1⟩ := clearFirstDefault_get? hwf (ρ.run 0 m) hsub hget
    obtain ⟨err, hadd⟩ := AddIndexSet_conflict V newId
      { indexSets := some (clearFirstDefault (ρ.run 0 m) m) } { r with Default := true }
      ⟨id, r1, by simpa [GoMap.get?, GoMap.entries] using hr1, hp1⟩
    refine ⟨{ indexSets := some (clearFirstDefault (ρ.run 0 m) m) }, ?_, ?_⟩
    · have hw1 : (!r.Writable) = false := by simp [hw]
      simp only [handleSetDefaultIndexSet, GetIndexSet, GoMap.get?, GoMap.entries, hget, hw1,
        Option.map, Bool.false_eq_true, if_false, hadd]
    · simp only [defaultCount, GoMap.entries]
      omega

/-- C1, evaluated on the code: `sampleServer` has exactly one default record
(`a`) and `b` is an existing writable record; after `handleSetDefaultIndexSet`
on `b` the store has no default record at all, and `b` is still not the
default. -/
theorem handleSetDefaultIndexSet_sample_no_default :
    defaultCount sampleServer = 1 ∧
    (GetIndexSet sampleServer "b").map (fun r => r.Writable) = some true ∧
    (handleSetDefaultIndexSet RangeOrder.inOrder acceptAll (fun _ => some "") "c"
        sampleServer "b").map
      (fun out => (defaultCount out.1, (GetIndexSet out.1 "b").map (fun r => r.Default)))
      = some (0, some false) := by
  decide

/-- C2: when some record of the store already has the index prefix of the
record to add, `AddIndexSet` returns no record, status 400 and an error, and
the server is the one it was given. -/
theorem AddIndexSet_duplicate_prefix_rejected (V : Validators) (newId : String) (ms : MockServer)
    (indexSet : IndexSet)
    (h : ∃ k r, GetIndexSet ms k = some r ∧ r.IndexPrefix = indexSet.IndexPrefix) :
    ∃ err, AddIndexSet V newId ms indexSet = some ((none, 400, some err), ms) :=
  AddIndexSet_conflict V newId ms indexSet h

theorem AddIndexSet_duplicate_prefix_rejected_witness :
    (∃ k r, GetIndexSet sampleServer k = some r ∧
      r.IndexPrefix = ({ Title := "C", IndexPrefix := "audit" } : IndexSet).IndexPrefix) ∧
    ∃ err, AddIndexSet acceptAll "c" sampleServer { Title := "C", IndexPrefix := "audit" }
      = some ((none, 400, some err), sampleServer) :=
  ⟨⟨"b", sampleB, by decide, by decide⟩,
   AddIndexSet_duplicate_prefix_rejected acceptAll "c" sampleServer _ ⟨"b", sampleB, by decide, by decide⟩⟩

/-! ### Adding records with distinct prefixes -/

theorem Entries.mem_set {α : Type} {m : Entries α} {k : String} {v : α} {e : String × α}
    (h : e ∈ Entries.set m k v) : e = (k, v) ∨ e ∈ m := by
  induction m with
  | nil => simpa [Entries.set] using h
  | cons e0 m ih =>
    obtain ⟨k0, v0⟩ := e0
    by_cases hk : k0 = k
    · simp only [Entries.set, hk, if_true, List.mem_cons] at h
      rcases h with h | h
      · exact Or.inl h
      · exact Or.inr (List.mem_cons_of_mem _ h)
    · simp only [Entries.set, hk, if_false, List.mem_cons] at h
      rcases h with h | h
      · exact Or.inr (by simp [h])
      · rcases ih h with h1 | h1
        · exact Or.inl h1
        · exact Or.inr (List.mem_cons_of_mem _ h1)

theorem AddIndexSet_fresh (V : Validators) (newId : String) (m : Entries IndexSet)
    (indexSet : IndexSet) (hv : V.CreateValidator indexSet = none)
    (hp : ∀ e ∈ m, e.2.IndexPrefix ≠ indexSet.IndexPrefix) :
    AddIndexSet V newId { indexSets := some m } indexSet
      = some ((some { indexSet with Id := newId }, 200, none),
          { indexSets := some (Entries.set m newId { indexSet with Id := newId }) }) := by
  have hany : m.any (fun e => decide (e.2.IndexPrefix = indexSet.IndexPrefix)) = false := by
    rw [List.any_eq_false]
    intro e he
    simpa using hp e he
  simp [AddIndexSet, hv, GoMap.entries, hany, GoMap.assign]

theorem addAll_prefixes (V : Validators) (xs : List (IndexSet × String)) :
    ∀ (m : Entries IndexSet) (S : List String),
      (∀ x ∈ xs, V.CreateValidator x.1 = none) →
      (xs.map (fun x => x.1.IndexPrefix)).Nodup →
      (∀ x ∈ xs, x.1.IndexPrefix ∉ S) →
      (∀ e ∈ m, e.2.IndexPrefix ∈ S) →
      ∃ m1, addAll V xs { indexSets := some m } = some { indexSets := some m1 } ∧
        ∀ e ∈ m1, e.2.IndexPrefix ∈ S ++ xs.map (fun x => x.1.IndexPrefix) := by
  induction xs with
  | nil =>
    intro m S _ _ _ hm
    exact ⟨m, rfl, by simpa using hm⟩
  | cons x xs ih =>
    intro m S hval hnd hS hm
    obtain ⟨indexSet, newId⟩ := x
    have hnd1 : indexSet.IndexPrefix ∉ xs.map (fun x => x.1.IndexPrefix) ∧
        (xs.map (fun x => x.1.IndexPrefix)).Nodup := by
      simpa using hnd
    have hfresh : ∀ e ∈ m, e.2.IndexPrefix ≠ indexSet.IndexPrefix := by
      intro e he heq
      exact hS (indexSet, newId) (List.mem_cons_self _ _) (heq ▸ hm e he)
    have hadd := AddIndexSet_fresh V newId m indexSet
      (hval (indexSet, newId) (List.mem_cons_self _ _)) hfresh
    obtain ⟨m1, hrun, hm1⟩ := ih (Entries.set m newId { indexSet with Id := newId })
      (S ++ [indexSet.IndexPrefix])
      (fun x hx => hval x (List.mem_cons_of_mem _ hx)) hnd1.2
      (by
        intro x hx hmem
        rcases List.mem_append.mp hmem with h | h
        · exact hS x (List.mem_cons_of_mem _ hx) h
        · have : x.1.IndexPrefix = indexSet.IndexPrefix := by simpa using h
          exact hnd1.1 (this ▸ List.mem_map_of_mem (fun x => x.1.IndexPrefix) hx))
      (by
        intro e he
        rcases Entries.mem_set he with h | h
        · subst h; simp
        · exact List.mem_append_left _ (hm e h))
    refine ⟨m1, ?_, ?_⟩
    · simp only [addAll, hadd]
      exact hrun
    · intro e he
      simpa [List.append_assoc] using hm1 e he

/-- C3: index sets that pass create-validation and have pairwise distinct
index prefixes are added one after the other to the empty server, each call
with its generated identifier. Every one of the calls returns status 200, no
error and its input with `Id` replaced by the generated identifier, and right
after the call the store maps that identifier to that record. -/
theorem AddIndexSet_distinct_prefixes (V : Validators) (xs : List (IndexSet × String))
    (hval : ∀ x ∈ xs, V.CreateValidator x.1 = none)
    (hnd : (xs.map (fun x => x.1.IndexPrefix)).Nodup)
    (pre post : List (IndexSet × String)) (x : IndexSet × String)
    (hsplit : xs = pre ++ x :: post) :
    ∃ ms1 ms2, addAll V pre MockServer.empty = some ms1 ∧
      AddIndexSet V x.2 ms1 x.1 = some ((some { x.1 with Id := x.2 }, 200, none), ms2) ∧
      GetIndexSet ms2 x.2 = some { x.1 with Id := x.2 } := by
  subst hsplit
  have hnd1 : (pre.map (fun x => x.1.IndexPrefix)).Nodup ∧
      x.1.IndexPrefix ∉ pre.map (fun x => x.1.IndexPrefix) := by
    rw [List.map_append, List.nodup_append] at hnd
    refine ⟨hnd.1, fun hmem => ?_⟩
    exact hnd.2.2 hmem (by simp)
  obtain ⟨m1, hrun, hm1⟩ := addAll_prefixes V pre [] []
    (fun y hy => hval y (List.mem_append_left _ hy)) hnd1.1 (by simp) (by simp)
  have hfresh : ∀ e ∈ m1, e.2.IndexPrefix ≠ x.1.IndexPrefix := by
    intro e he heq
    have := hm1 e he
    rw [heq] at this
    exact hnd1.2 (by simpa using this)
  refine ⟨{ indexSets := some m1 }, _, hrun,
    AddIndexSet_fresh V x.2 m1 x.1 (hval x (by simp)) hfresh, ?_⟩
  simp [GetIndexSet, GoMap.get?, GoMap.entries, Entries.get?_set_self]

theorem AddIndexSet_distinct_prefixes_witness :
    (∀ x ∈ [(sampleA, "x"), (sampleB, "y")], acceptAll.CreateValidator x.1 = none) ∧
    ([(sampleA, "x"), (sampleB, "y")].map (fun x => x.1.IndexPrefix)).Nodup ∧
    ∃ ms1 ms2, addAll acceptAll [(sampleA, "x")] MockServer.empty = some ms1 ∧
      AddIndexSet acceptAll "y" ms1 sampleB
        = some ((some { sampleB with Id := "y" }, 200, none), ms2) ∧
      GetIndexSet ms2 "y" = some { sampleB with Id := "y" } :=
  ⟨by decide, by decide,
   AddIndexSet_distinct_prefixes acceptAll [(sampleA, "x"), (sampleB, "y")]
     (by decide) (by decide) [(sampleA, "x")] [] (sampleB, "y") rfl⟩

/-! ### Unknown identifiers -/

/-- C4: for an identifier that is not a key of the store, `UpdateIndexSet` with
any record carrying that `Id` (valid or not, conflicting or not) and
`DeleteIndexSet` both return status 404 with an error, and the server, hence
the size of its store, is unchanged. -/
theorem update_delete_unknown_id (V : Validators) (ms : MockServer) (id : String)
    (h : GetIndexSet ms id = none) :
    (∀ indexSet : IndexSet, indexSet.Id = id →
      UpdateIndexSet V ms indexSet
        = some ((404, some ("No indexSet found with id " ++ id)), ms)) ∧
    DeleteIndexSet ms id = ((404, some "The indexSet is not found"), ms) := by
  have hhas : HasIndexSet ms id = false := by
    simp only [GetIndexSet] at h
    simp [HasIndexSet, h]
  constructor
  · intro indexSet hid
    subst hid
    simp [UpdateIndexSet, hhas]
  · simp [DeleteIndexSet, hhas]

theorem update_delete_unknown_id_witness :
    GetIndexSet sampleServer "zz" = none ∧
    UpdateIndexSet rejectAll sampleServer { Id := "zz", IndexPrefix := "audit" }
      = some ((404, some ("No indexSet found with id " ++ "zz")), sampleServer) ∧
    DeleteIndexSet sampleServer "zz" = ((404, some "The indexSet is not found"), sampleServer) :=
  ⟨by decide,
   (update_delete_unknown_id rejectAll sampleServer "zz" (by decide)).1 _ rfl,
   (update_delete_unknown_id rejectAll sampleServer "zz" (by decide)).2⟩

/-! ### What the store operations preserve -/

/-- The store invariant: every record sits under its own identifier, and
records under different identifiers have different index prefixes. -/
theorem reachable_inv (V : Validators) {ms : MockServer} (h : Reachable V ms) :
    (∀ k r, GetIndexSet ms k = some r → r.Id = k) ∧
    (∀ k1 k2 r1 r2, k1 ≠ k2 → GetIndexSet ms k1 = some r1 → GetIndexSet ms k2 = some r2 →
      r1.IndexPrefix ≠ r2.IndexPrefix) := by
  induction h with
  | empty =>
    constructor
    · intro k r hk
      simp [GetIndexSet, MockServer.empty, GoMap.get?, GoMap.entries, Entries.get?] at hk
    · intro k1 k2 r1 r2 _ hk
      simp [GetIndexSet, MockServer.empty, GoMap.get?, GoMap.entries, Entries.get?] at hk
  | @add ms ms1 newId indexSet res _ hadd ih =>
    obtain ⟨im⟩ := ms
    unfold AddIndexSet at hadd
    cases hv : V.CreateValidator indexSet with
    | some err =>
      simp only [hv, Option.some.injEq, Prod.mk.injEq] at hadd
      rw [← hadd.2]; exact ih
    | none =>
      simp only [hv] at hadd
      by_cases hany : (GoMap.entries im).any
          (fun e => decide (e.2.IndexPrefix = indexSet.IndexPrefix)) = true
      · simp only [hany, if_true, Option.some.injEq, Prod.mk.injEq] at hadd
        rw [← hadd.2]; exact ih
      · have hany1 := Bool.eq_false_iff.mpr hany
        cases im with
        | none => simp [hany1, GoMap.assign] at hadd
        | some m =>
          simp only [hany1, GoMap.assign, Bool.false_eq_true, if_false, Option.some.injEq,
            Prod.mk.injEq] at hadd
          have hms1 := hadd
          have hfresh : ∀ k r, Entries.get? m k = some r →
              r.IndexPrefix ≠ indexSet.IndexPrefix := by
            intro k r hk heq
            apply hany
            exact List.any_eq_true.mpr ⟨(k, r), Entries.get?_mem hk, by simp [heq]⟩
          simp only [GetIndexSet, GoMap.get?, GoMap.entries] at ih
          have hlook : ∀ k, GetIndexSet ms1 k =
              if k = newId then some { indexSet with Id := newId } else Entries.get? m k := by
            intro k
            rw [← hms1.2]
            simp only [GetIndexSet, GoMap.get?, GoMap.entries]
            by_cases hk : k = newId
            · subst hk; simp [Entries.get?_set_self]
            · simp [hk, Entries.get?_set_ne _ _ hk]
          constructor
          · intro k r hk
            rw [hlook] at hk
            by_cases hkn : k = newId
            · simp only [hkn, if_true, Option.some.injEq] at hk
              rw [← hk, hkn]
            · simp only [hkn, if_false] at hk
              exact ih.1 k r hk
          · intro k1 k2 r1 r2 hne h1 h2
            rw [hlook] at h1 h2
            by_cases hk1 : k1 = newId
            · have hk2 : k2 ≠ newId := fun h => hne (hk1.trans h.symm)
              simp only [hk1, if_true, Option.some.injEq] at h1
              simp only [hk2, if_false] at h2
              rw [← h1]
              exact fun heq => hfresh k2 r2 h2 heq.symm
            · simp only [hk1, if_false] at h1
              by_cases hk2 : k2 = newId
              · simp only [hk2, if_true, Option.some.injEq] at h2
                rw [← h2]
                exact hfresh k1 r1 h1
              · simp only [hk2, if_false] at h2
                exact ih.2 k1 k2 r1 r2 hne h1 h2
  | @update ms ms1 indexSet res _ hupd ih =>
    obtain ⟨im⟩ := ms
    unfold UpdateIndexSet at hupd
    by_cases hhas : HasIndexSet { indexSets := im } indexSet.Id = true
    · simp only [hhas, Bool.not_true, Bool.false_eq_true, if_false] at hupd
      cases hv : V.UpdateValidator indexSet with
      | some err =>
        simp only [hv, Option.some.injEq, Prod.mk.injEq] at hupd
        rw [← hupd.2]; exact ih
      | none =>
        simp only [hv] at hupd
        by_cases hany : (GoMap.entries im).any (fun e =>
            decide (e.2.IndexPrefix = indexSet.IndexPrefix) && decide (e.2.Id ≠ indexSet.Id))
              = true
        · simp only [hany, if_true, Option.some.injEq, Prod.mk.injEq] at hupd
          rw [← hupd.2]; exact ih
        · have hany1 := Bool.eq_false_iff.mpr hany
          cases im with
          | none => simp [HasIndexSet, GoMap.get?, GoMap.entries, Entries.get?] at hhas
          | some m =>
            simp only [hany1, GoMap.assign, Bool.false_eq_true, if_false, Option.some.injEq,
              Prod.mk.injEq] at hupd
            have hms1 := hupd
            simp only [GetIndexSet, GoMap.get?, GoMap.entries] at ih
            have hfresh : ∀ k r, Entries.get? m k = some r → k ≠ indexSet.Id →
                r.IndexPrefix ≠ indexSet.IndexPrefix := by
              intro k r hk hne heq
              apply hany
              refine List.any_eq_true.mpr ⟨(k, r), Entries.get?_mem hk, ?_⟩
              have hid : r.Id ≠ indexSet.Id := by rw [ih.1 k r hk]; exact hne
              simp [heq, hid]
            have hlook : ∀ k, GetIndexSet ms1 k =
                if k = indexSet.Id then some indexSet else Entries.get? m k := by
              intro k
              rw [← hms1.2]
              simp only [GetIndexSet, GoMap.get?, GoMap.entries]
              by_cases hk : k = indexSet.Id
              · subst hk; simp [Entries.get?_set_self]
              · simp [hk, Entries.get?_set_ne _ _ hk]
            constructor
            · intro k r hk
              rw [hlook] at hk
              by_cases hkn : k = indexSet.Id
              · simp only [hkn, if_true, Option.some.injEq] at hk
                rw [← hk, hkn]
              · simp only [hkn, if_false] at hk
                exact ih.1 k r hk
            · intro k1 k2 r1 r2 hne h1 h2
              rw [hlook] at h1 h2
              by_cases hk1 : k1 = indexSet.Id
              · have hk2 : k2 ≠ indexSet.Id := fun h => hne (hk1.trans h.symm)
                simp only [hk1, if_true, Option.some.injEq] at h1
                simp only [hk2, if_false] at h2
                rw [← h1]
                exact fun heq => hfresh k2 r2 h2 hk2 heq.symm
              · simp only [hk1, if_false] at h1
                by_cases hk2 : k2 = indexSet.Id
                · simp only [hk2, if_true, Option.some.injEq] at h2
                  rw [← h2]
                  exact hfresh k1 r1 h1 hk1
                · simp only [hk2, if_false] at h2
                  exact ih.2 k1 k2 r1 r2 hne h1 h2
    · simp only [hhas, Bool.not_false, if_true, Option.some.injEq, Prod.mk.injEq] at hupd
      rw [← hupd.2]; exact ih
  | @delete ms id _ ih =>
    obtain ⟨im⟩ := ms
    by_cases hhas : HasIndexSet { indexSets := im } id = true
    · have hlook : ∀ k r, GetIndexSet (DeleteIndexSet { indexSets := im } id).2 k = some r →
          GetIndexSet { indexSets := im } k = some r := by
        intro k r hk
        cases im with
        | none => simp [HasIndexSet, GoMap.get?, GoMap.entries, Entries.get?] at hhas
        | some m =>
          simp only [DeleteIndexSet, hhas, Bool.not_true, Bool.false_eq_true, if_false,
            GetIndexSet, GoMap.get?, GoMap.entries, GoMap.delete, Entries.get?_delete] at hk ⊢
          by_cases hkid : k = id
          · simp [hkid] at hk
          · simpa [hkid] using hk
      exact ⟨fun k r hk => ih.1 k r (hlook k r hk),
        fun k1 k2 r1 r2 hne h1 h2 => ih.2 k1 k2 r1 r2 hne (hlook _ _ h1) (hlook _ _ h2)⟩
    · simp only [DeleteIndexSet, hhas, Bool.not_false, if_true]
      exact ih

theorem sampleServer_reachable : Reachable acceptAll sampleServer :=
  @Reachable.add acceptAll { indexSets := some [("a", sampleA)] } sampleServer "b" sampleB
    (some sampleB, 200, none)
    (@Reachable.add acceptAll MockServer.empty { indexSets := some [("a", sampleA)] } "a" sampleA
      (some sampleA, 200, none) Reachable.empty (by decide))
    (by decide)

/-- C5: in every server built from the empty one by `AddIndexSet`,
`UpdateIndexSet` and `DeleteIndexSet` calls, with any records, any generated
identifiers and any outcomes, two records stored under different identifiers
never have the same index prefix. -/
theorem reachable_prefix_unique (V : Validators) (ms : MockServer) (h : Reachable V ms)
    (k1 k2 : String) (r1 r2 : IndexSet) (hne : k1 ≠ k2)
    (h1 : GetIndexSet ms k1 = some r1) (h2 : GetIndexSet ms k2 = some r2) :
    r1.IndexPrefix ≠ r2.IndexPrefix :=
  (reachable_inv V h).2 k1 k2 r1 r2 hne h1 h2

theorem reachable_prefix_unique_witness :
    Reachable acceptAll sampleServer ∧ "a" ≠ "b" ∧
    GetIndexSet sampleServer "a" = some sampleA ∧ GetIndexSet sampleServer "b" = some sampleB ∧
    sampleA.IndexPrefix ≠ sampleB.IndexPrefix :=
  ⟨sampleServer_reachable, by decide, by decide, by decide,
   reachable_prefix_unique acceptAll sampleServer sampleServer_reachable "a" "b" sampleA sampleB
     (by decide) (by decide) (by decide)⟩

/-! ### Updating a record -/

/-- C6: for every store and every record whose `Id` is a key of the store and
which passes update-validation: if no stored record with another `Id` has its
index prefix (the record's own previous prefix does not count),
`UpdateIndexSet` returns 200 without error, the store then maps that `Id` to
the given record, and every other key and the size of the store are as before;
if a stored record with another `Id` has its index prefix, it returns 400 with
an error and the server is unchanged. -/
theorem UpdateIndexSet_existing (V : Validators) (ms : MockServer) (indexSet : IndexSet)
    (hhas : HasIndexSet ms indexSet.Id = true)
    (hval : V.UpdateValidator indexSet = none) :
    ((∀ e ∈ ms.indexSets.entries, e.2.Id ≠ indexSet.Id →
        e.2.IndexPrefix ≠ indexSet.IndexPrefix) →
      ∃ ms1, UpdateIndexSet V ms indexSet = some ((200, none), ms1) ∧
        GetIndexSet ms1 indexSet.Id = some indexSet ∧
        (∀ k, k ≠ indexSet.Id → GetIndexSet ms1 k = GetIndexSet ms k) ∧
        ms1.indexSets.len = ms.indexSets.len) ∧
    ((∃ e ∈ ms.indexSets.entries, e.2.Id ≠ indexSet.Id ∧
        e.2.IndexPrefix = indexSet.IndexPrefix) →
      ∃ err, UpdateIndexSet V ms indexSet = some ((400, some err), ms)) := by
  obtain ⟨im⟩ := ms
  cases im with
  | none => simp [HasIndexSet, GoMap.get?, GoMap.entries, Entries.get?] at hhas
  | some m =>
    simp only [GoMap.entries]
    constructor
    · intro hfree
      have hany : m.any (fun e =>
          decide (e.2.IndexPrefix = indexSet.IndexPrefix) && decide (e.2.Id ≠ indexSet.Id))
            = false := by
        rw [List.any_eq_false]
        intro e he
        have h2 := hfree e he
        by_cases hid : e.2.Id = indexSet.Id
        · simp [hid]
        · simp [h2 hid]
      refine ⟨{ indexSets := some (Entries.set m indexSet.Id indexSet) }, ?_, ?_, ?_, ?_⟩
      · simp only [UpdateIndexSet, hhas, hval, GoMap.entries, hany, GoMap.assign,
          Bool.not_true, Bool.false_eq_true, if_false]
      · simp [GetIndexSet, GoMap.get?, GoMap.entries, Entries.get?_set_self]
      · intro k hk
        simp [GetIndexSet, GoMap.get?, GoMap.entries, Entries.get?_set_ne _ _ hk]
      · have : Entries.has m indexSet.Id = true := by
          simpa [HasIndexSet, GoMap.get?, GoMap.entries, Entries.has] using hhas
        simp [GoMap.len, GoMap.entries, Entries.length_set_of_has _ _ _ this]
    · rintro ⟨e, he, hne, hp⟩
      have hany : m.any (fun e =>
          decide (e.2.IndexPrefix = indexSet.IndexPrefix) && decide (e.2.Id ≠ indexSet.Id))
            = true := by
        refine List.any_eq_true.mpr ⟨e, he, ?_⟩
        simp [hp, hne]
      exact ⟨conflictMsg indexSet.IndexPrefix,
        by simp only [UpdateIndexSet, hhas, hval, GoMap.entries, hany, Bool.not_true,
          Bool.false_eq_true, if_false, if_true]⟩

theorem UpdateIndexSet_existing_witness :
    HasIndexSet sampleServer "b" = true ∧
    acceptAll.UpdateValidator { sampleB with IndexPrefix := "audit2" } = none ∧
    (∃ ms1, UpdateIndexSet acceptAll sampleServer { sampleB with IndexPrefix := "audit2" }
        = some ((200, none), ms1) ∧
      GetIndexSet ms1 "b" = some { sampleB with IndexPrefix := "audit2" } ∧
      (∀ k, k ≠ "b" → GetIndexSet ms1 k = GetIndexSet sampleServer k) ∧
      ms1.indexSets.len = sampleServer.indexSets.len) ∧
    (∃ ms1, UpdateIndexSet acceptAll sampleServer { sampleB with Title := "B2" }
        = some ((200, none), ms1) ∧
      GetIndexSet ms1 "b" = some { sampleB with Title := "B2" }) ∧
    (∃ err, UpdateIndexSet acceptAll sampleServer { sampleB with IndexPrefix := "graylog" }
        = some ((400, some err), sampleServer)) :=
  ⟨by decide, rfl,
   (UpdateIndexSet_existing acceptAll sampleServer { sampleB with IndexPrefix := "audit2" }
      (by decide) rfl).1 (by decide),
   ((UpdateIndexSet_existing acceptAll sampleServer { sampleB with Title := "B2" }
      (by decide) rfl).1 (by decide)).imp (fun _ h => ⟨h.1, h.2.1⟩),
   (UpdateIndexSet_existing acceptAll sampleServer { sampleB with IndexPrefix := "graylog" }
      (by decide) rfl).2 ⟨("a", sampleA), by decide, by decide, by decide⟩⟩

/-- The same in terms of keys: in a store where every record sits under its own
identifier, the records with another `Id` are the records under another key. -/
theorem UpdateIndexSet_keyed (V : Validators) (ms : MockServer) (indexSet : IndexSet)
    (hkey : KeyedById ms) (hhas : HasIndexSet ms indexSet.Id = true)
    (hval : V.UpdateValidator indexSet = none) :
    ((∀ e ∈ ms.indexSets.entries, e.1 ≠ indexSet.Id →
        e.2.IndexPrefix ≠ indexSet.IndexPrefix) →
      ∃ ms1, UpdateIndexSet V ms indexSet = some ((200, none), ms1) ∧
        GetIndexSet ms1 indexSet.Id = some indexSet ∧
        (∀ k, k ≠ indexSet.Id → GetIndexSet ms1 k = GetIndexSet ms k) ∧
        ms1.indexSets.len = ms.indexSets.len) ∧
    ((∃ e ∈ ms.indexSets.entries, e.1 ≠ indexSet.Id ∧
        e.2.IndexPrefix = indexSet.IndexPrefix) →
      ∃ err, UpdateIndexSet V ms indexSet = some ((400, some err), ms)) := by
  obtain ⟨im⟩ := ms
  cases im with
  | none => simp [HasIndexSet, GoMap.get?, GoMap.entries, Entries.get?] at hhas
  | some m =>
    simp only [KeyedById, GoMap.entries] at hkey
    simp only [GoMap.entries]
    constructor
    · intro hfree
      have hany : m.any (fun e =>
          decide (e.2.IndexPrefix = indexSet.IndexPrefix) && decide (e.2.Id ≠ indexSet.Id))
            = false := by
        rw [List.any_eq_false]
        intro e he
        have h1 := hkey e he
        have h2 := hfree e he
        by_cases hid : e.1 = indexSet.Id
        · simp [h1, hid]
        · simp [h2 hid]
      refine ⟨{ indexSets := some (Entries.set m indexSet.Id indexSet) }, ?_, ?_, ?_, ?_⟩
      · simp only [UpdateIndexSet, hhas, hval, GoMap.entries, hany, GoMap.assign,
          Bool.not_true, Bool.false_eq_true, if_false]
      · simp [GetIndexSet, GoMap.get?, GoMap.entries, Entries.get?_set_self]
      · intro k hk
        simp [GetIndexSet, GoMap.get?, GoMap.entries, Entries.get?_set_ne _ _ hk]
      · have : Entries.has m indexSet.Id = true := by
          simpa [HasIndexSet, GoMap.get?, GoMap.entries, Entries.has] using hhas
        simp [GoMap.len, GoMap.entries, Entries.length_set_of_has _ _ _ this]
    · rintro ⟨e, he, hne, hp⟩
      have hany : m.any (fun e =>
          decide (e.2.IndexPrefix = indexSet.IndexPrefix) && decide (e.2.Id ≠ indexSet.Id))
            = true := by
        refine List.any_eq_true.mpr ⟨e, he, ?_⟩
        have h1 := hkey e he
        simp [hp, h1, hne]
      exact ⟨conflictMsg indexSet.IndexPrefix,
        by simp only [UpdateIndexSet, hhas, hval, GoMap.entries, hany, Bool.not_true,
          Bool.false_eq_true, if_false, if_true]⟩

/-! ## Request-body validation -/

theorem mem_keys_run (ρ : RangeOrder) (site : Nat) (m : Entries JsonValue) (k : String) :
    k ∈ Entries.keys (ρ.run site m) ↔ k ∈ Entries.keys m :=
  ((ρ.perm site m).map Prod.fst).mem_iff

theorem mem_keys_addKeys (visit : Entries JsonValue) :
    ∀ (dst : Entries JsonValue) (k : String),
      k ∈ Entries.keys (addKeys visit dst) ↔ k ∈ Entries.keys dst ∨ k ∈ Entries.keys visit := by
  induction visit with
  | nil => intro dst k; simp [addKeys, Entries.keys]
  | cons e visit ih =>
    intro dst k
    have := ih (Entries.set dst e.1 JsonValue.null) k
    simp only [addKeys] at this
    simp only [addKeys, List.foldl_cons, this, Entries.mem_keys_set]
    simp only [Entries.keys, List.map_cons, List.mem_cons]
    tauto

theorem mem_keys_makeHash (arr : List String) (k : String) :
    k ∈ Entries.keys (makeHash arr) ↔ k ∈ arr := by
  have key : ∀ (xs : List String) (init : Entries JsonValue),
      k ∈ Entries.keys (xs.foldl (fun h k => Entries.set h k JsonValue.null) init)
        ↔ k ∈ Entries.keys init ∨ k ∈ xs := by
    intro xs
    induction xs with
    | nil => intro init; simp
    | cons x xs ih =>
      intro init
      simp only [List.foldl_cons, ih, Entries.mem_keys_set, List.mem_cons]
      tauto
  simpa [makeHash, Entries.keys] using key arr []

theorem makeHash_length (arr : List String) : (makeHash arr).length ≠ 0 ↔ arr ≠ [] := by
  cases arr with
  | nil => simp [makeHash]
  | cons a as =>
    have h : a ∈ Entries.keys (makeHash (a :: as)) := (mem_keys_makeHash _ _).mpr (by simp)
    constructor
    · intro _; simp
    · intro _ h0
      have : makeHash (a :: as) = [] := List.length_eq_zero.mp h0
      rw [this] at h
      simp [Entries.keys] at h

theorem dropUnaccepted_eq_filter (acf : Entries JsonValue) (visit : Entries JsonValue) :
    ∀ body : Entries JsonValue,
      dropUnaccepted visit acf body
        = body.filter (fun e => decide (e.1 ∈ Entries.keys visit → Entries.has acf e.1 = true)) := by
  induction visit with
  | nil => intro body; simp [dropUnaccepted, Entries.keys]
  | cons e0 visit ih =>
    intro body
    simp only [dropUnaccepted, List.foldl_cons]
    simp only [dropUnaccepted] at ih
    by_cases h0 : Entries.has acf e0.1 = true
    · simp only [h0, if_true, ih]
      apply List.filter_congr
      intro e _
      simp only [Entries.keys, List.map_cons, List.mem_cons, decide_eq_decide]
      constructor
      · rintro h (h1 | h1)
        · rw [h1]; exact h0
        · exact h h1
      · intro h h1
        exact h (Or.inr h1)
    · simp only [h0, Bool.false_eq_true, if_false, ih]
      simp only [Entries.delete, List.filter_filter]
      apply List.filter_congr
      intro e _
      simp only [Entries.keys, List.map_cons, List.mem_cons]
      by_cases h1 : e.1 = e0.1
      · simp [h1, h0]
      · simp [h1]

theorem dropUnaccepted_perm (ρ : RangeOrder) (site : Nat) (acf body : Entries JsonValue) :
    dropUnaccepted (ρ.run site body) acf body
      = body.filter (fun e => decide (e.1 ∈ Entries.keys acf)) := by
  rw [dropUnaccepted_eq_filter]
  apply List.filter_congr
  intro e he
  have hk : e.1 ∈ Entries.keys (ρ.run site body) :=
    (mem_keys_run ρ site body e.1).mpr (List.mem_map_of_mem Prod.fst he)
  simp [hk, Entries.has_iff_mem_keys]

theorem validateRequestBody_missing (ρ : RangeOrder)
    (unmarshal : String → Except String JsonValue) (b : String) (rq al ac : List String)
    (body : Entries JsonValue) (e : String × JsonValue)
    (hdec : unmarshal b = Except.ok (JsonValue.object body))
    (hfind : (ρ.run 0 (makeHash rq)).find? (fun e => !Entries.has body e.1) = some e) :
    validateRequestBody ρ unmarshal b rq al ac
      = (400, "In the request body the field " ++ e.1 ++ " is required", some body) := by
  simp only [validateRequestBody, hdec, hfind]

theorem validateRequestBody_invalid (ρ : RangeOrder)
    (unmarshal : String → Except String JsonValue) (b : String) (rq al ac : List String)
    (body : Entries JsonValue) (e : String × JsonValue)
    (hdec : unmarshal b = Except.ok (JsonValue.object body))
    (hreq : (ρ.run 0 (makeHash rq)).find? (fun e => !Entries.has body e.1) = none)
    (hal : al ≠ [])
    (hfind : (ρ.run 3 body).find?
      (fun e => !Entries.has (addKeys (ρ.run 1 (makeHash rq)) (makeHash al)) e.1) = some e) :
    validateRequestBody ρ unmarshal b rq al ac
      = (400, "In the request body an invalid field is found: " ++ e.1 ++
          "\nThe allowed fields: " ++
          ", ".intercalate
            ((ρ.run 2 (addKeys (ρ.run 1 (makeHash rq)) (makeHash al))).map Prod.fst) ++
          ", request body: " ++ b,
         some body) := by
  have hlen : (makeHash al).length ≠ 0 := (makeHash_length al).mpr hal
  simp only [validateRequestBody, hdec, hreq, hlen, ne_eq, not_false_eq_true, if_true, hfind]

theorem validateRequestBody_pass (ρ : RangeOrder)
    (unmarshal : String → Except String JsonValue) (b : String) (rq al ac : List String)
    (body : Entries JsonValue)
    (hdec : unmarshal b = Except.ok (JsonValue.object body))
    (hreq : (ρ.run 0 (makeHash rq)).find? (fun e => !Entries.has body e.1) = none)
    (hinv : al ≠ [] → (ρ.run 3 body).find?
      (fun e => !Entries.has (addKeys (ρ.run 1 (makeHash rq)) (makeHash al)) e.1) = none) :
    validateRequestBody ρ unmarshal b rq al ac
      = (200, "", some (if ac = [] then body
          else body.filter (fun e => decide (e.1 ∈ rq ∨ e.1 ∈ al ∨ e.1 ∈ ac)))) := by
  have hacf : ∀ (alf1 : Entries JsonValue),
      (∀ k, k ∈ Entries.keys alf1 → k ∈ rq ∨ k ∈ al) → (∀ k, k ∈ al → k ∈ Entries.keys alf1) →
      dropUnaccepted (ρ.run 6 body)
          (addKeys (ρ.run 5 alf1) (addKeys (ρ.run 4 (makeHash rq)) (makeHash ac))) body
        = body.filter (fun e => decide (e.1 ∈ rq ∨ e.1 ∈ al ∨ e.1 ∈ ac)) := by
    intro alf1 h1 h2
    rw [dropUnaccepted_perm]
    apply List.filter_congr
    intro e _
    simp only [mem_keys_addKeys, mem_keys_run, mem_keys_makeHash, decide_eq_decide]
    constructor
    · rintro ((h | h) | h)
      · exact Or.inr (Or.inr h)
      · exact Or.inl h
      · rcases h1 _ h with h | h
        · exact Or.inl h
        · exact Or.inr (Or.inl h)
    · rintro (h | h | h)
      · exact Or.inl (Or.inr h)
      · exact Or.inr (h2 _ h)
      · exact Or.inl (Or.inl h)
  by_cases hal : al = []
  · subst hal
    have hlen : ¬ (makeHash []).length ≠ 0 := by simp [makeHash]
    simp only [validateRequestBody, hdec, hreq, hlen, if_false]
    by_cases hac : ac = []
    · subst hac
      simp [makeHash]
    · have hlen2 : (makeHash ac).length ≠ 0 := (makeHash_length ac).mpr hac
      simp only [hlen2, ne_eq, not_false_eq_true, if_true, hac, if_false]
      rw [hacf (makeHash []) (by simp [makeHash, Entries.keys]) (by simp)]
  · have hlen : (makeHash al).length ≠ 0 := (makeHash_length al).mpr hal
    simp only [validateRequestBody, hdec, hreq, hlen, ne_eq, not_false_eq_true, if_true,
      hinv hal]
    by_cases hac : ac = []
    · subst hac
      simp [makeHash]
    · have hlen2 : (makeHash ac).length ≠ 0 := (makeHash_length ac).mpr hac
      simp only [hlen2, not_false_eq_true, if_true, hac, if_false]
      rw [hacf (addKeys (ρ.run 1 (makeHash rq)) (makeHash al))
        (by
          intro k hk
          simp only [mem_keys_addKeys, mem_keys_run, mem_keys_makeHash] at hk
          tauto)
        (by
          intro k hk
          simp only [mem_keys_addKeys, mem_keys_run, mem_keys_makeHash]
          exact Or.inl hk)]

theorem required_find_none (ρ : RangeOrder) (rq : List String) (body : Entries JsonValue)
    (h : ∀ k ∈ rq, k ∈ Entries.keys body) :
    (ρ.run 0 (makeHash rq)).find? (fun e => !Entries.has body e.1) = none := by
  rw [List.find?_eq_none]
  intro e he
  have h1 : e.1 ∈ Entries.keys (ρ.run 0 (makeHash rq)) := List.mem_map_of_mem Prod.fst he
  rw [mem_keys_run, mem_keys_makeHash] at h1
  simp [(Entries.has_iff_mem_keys body e.1).mpr (h _ h1)]

theorem required_find_some (ρ : RangeOrder) (rq : List String) (body : Entries JsonValue)
    (h : ∃ k ∈ rq, k ∉ Entries.keys body) :
    ∃ e, (ρ.run 0 (makeHash rq)).find? (fun e => !Entries.has body e.1) = some e ∧
      e.1 ∈ rq ∧ e.1 ∉ Entries.keys body := by
  cases hf : (ρ.run 0 (makeHash rq)).find? (fun e => !Entries.has body e.1) with
  | none =>
    exfalso
    obtain ⟨k, hk, hnot⟩ := h
    rw [List.find?_eq_none] at hf
    have h1 : k ∈ Entries.keys (ρ.run 0 (makeHash rq)) := by
      rw [mem_keys_run, mem_keys_makeHash]; exact hk
    obtain ⟨e, he, hek⟩ := List.mem_map.mp h1
    have := hf e he
    rw [hek] at this
    apply hnot
    rw [← Entries.has_iff_mem_keys]
    simpa using this
  | some e =>
    refine ⟨e, rfl, ?_, ?_⟩
    · have h1 : e.1 ∈ Entries.keys (ρ.run 0 (makeHash rq)) :=
        List.mem_map_of_mem Prod.fst (List.mem_of_find?_eq_some hf)
      rwa [mem_keys_run, mem_keys_makeHash] at h1
    · have := List.find?_some hf
      rw [← Entries.has_iff_mem_keys]
      simpa using this

/-- C7: when the body decodes to an object whose key set is exactly the set of
required fields, `validateRequestBody` returns status 200, the empty message
and the decoded object itself, whatever the allowed and accepted fields and
whatever order the maps are visited in. -/
theorem validateRequestBody_exact_required (ρ : RangeOrder)
    (unmarshal : String → Except String JsonValue) (b : String) (rq al ac : List String)
    (body : Entries JsonValue)
    (hdec : unmarshal b = Except.ok (JsonValue.object body))
    (hkeys : ∀ k, k ∈ Entries.keys body ↔ k ∈ rq) :
    validateRequestBody ρ unmarshal b rq al ac = (200, "", some body) := by
  have hreq := required_find_none ρ rq body (fun k hk => (hkeys k).mpr hk)
  rw [validateRequestBody_pass ρ unmarshal b rq al ac body hdec hreq]
  · by_cases hac : ac = []
    · simp [hac]
    · simp only [hac, if_false]
      congr 3
      rw [List.filter_eq_self]
      intro e he
      have : e.1 ∈ rq := (hkeys e.1).mp (List.mem_map_of_mem Prod.fst he)
      simp [this]
  · intro _
    rw [List.find?_eq_none]
    intro e he
    have h1 : e.1 ∈ Entries.keys body :=
      (mem_keys_run ρ 3 body e.1).mp (List.mem_map_of_mem Prod.fst he)
    have h2 : e.1 ∈ rq := (hkeys e.1).mp h1
    have h3 : Entries.has (addKeys (ρ.run 1 (makeHash rq)) (makeHash al)) e.1 = true := by
      rw [Entries.has_iff_mem_keys, mem_keys_addKeys, mem_keys_run, mem_keys_makeHash,
        mem_keys_makeHash]
      exact Or.inr h2
    simp [h3]

theorem validateRequestBody_exact_required_witness :
    sampleUnmarshal bodyTitle = Except.ok (JsonValue.object [("title", JsonValue.string "t")]) ∧
    (∀ k, k ∈ Entries.keys [("title", JsonValue.string "t")] ↔ k ∈ ["title"]) ∧
    validateRequestBody RangeOrder.reversed sampleUnmarshal bodyTitle
        ["title"] ["description"] ["extra"]
      = (200, "", some [("title", JsonValue.string "t")]) :=
  ⟨rfl, fun _ => Iff.rfl,
   validateRequestBody_exact_required RangeOrder.reversed sampleUnmarshal bodyTitle
     ["title"] ["description"] ["extra"] [("title", JsonValue.string "t")] rfl
     (fun _ => Iff.rfl)⟩

/-- C8: when the body decodes to an object that lacks a required field,
`validateRequestBody` returns status 400 and the message
`In the request body the field k is required` for a required field `k` that
the body does not have, whatever else the body holds and whatever the allowed
and accepted fields are. -/
theorem validateRequestBody_missing_required (ρ : RangeOrder)
    (unmarshal : String → Except String JsonValue) (b : String) (rq al ac : List String)
    (body : Entries JsonValue)
    (hdec : unmarshal b = Except.ok (JsonValue.object body))
    (hmiss : ∃ k ∈ rq, k ∉ Entries.keys body) :
    ∃ k, k ∈ rq ∧ k ∉ Entries.keys body ∧
      validateRequestBody ρ unmarshal b rq al ac
        = (400, "In the request body the field " ++ k ++ " is required", some body) := by
  obtain ⟨e, hfind, h1, h2⟩ := required_find_some ρ rq body hmiss
  exact ⟨e.1, h1, h2, validateRequestBody_missing ρ unmarshal b rq al ac body e hdec hfind⟩

theorem validateRequestBody_missing_required_witness :
    sampleUnmarshal bodyExtra = Except.ok (JsonValue.object [("extra", JsonValue.string "x")]) ∧
    (∃ k ∈ ["title"], k ∉ Entries.keys [("extra", JsonValue.string "x")]) ∧
    ∃ k, k ∈ ["title"] ∧ k ∉ Entries.keys [("extra", JsonValue.string "x")] ∧
      validateRequestBody RangeOrder.inOrder sampleUnmarshal bodyExtra ["title"] [] ["extra"]
        = (400, "In the request body the field " ++ k ++ " is required",
            some [("extra", JsonValue.string "x")]) :=
  ⟨rfl, ⟨"title", by decide, by decide⟩,
   validateRequestBody_missing_required RangeOrder.inOrder sampleUnmarshal bodyExtra
     ["title"] [] ["extra"] [("extra", JsonValue.string "x")] rfl
     ⟨"title", by decide, by decide⟩⟩

/-- C9: with a non-empty list of allowed fields, a body that decodes to an
object with a key outside the required and allowed fields gets status 400; and
when no required field is missing, the message names a key of the body outside
those fields, followed by the list of the required and allowed fields and the
raw body. -/
theorem validateRequestBody_outside_allowed (ρ : RangeOrder)
    (unmarshal : String → Except String JsonValue) (b : String) (rq al ac : List String)
    (body : Entries JsonValue) (hal : al ≠ [])
    (hdec : unmarshal b = Except.ok (JsonValue.object body))
    (hout : ∃ k ∈ Entries.keys body, k ∉ rq ∧ k ∉ al) :
    (validateRequestBody ρ unmarshal b rq al ac).1 = 400 ∧
    ((∀ k ∈ rq, k ∈ Entries.keys body) →
      ∃ k fields, k ∈ Entries.keys body ∧ k ∉ rq ∧ k ∉ al ∧
        (∀ f, f ∈ fields ↔ f ∈ rq ∨ f ∈ al) ∧
        validateRequestBody ρ unmarshal b rq al ac
          = (400, "In the request body an invalid field is found: " ++ k ++
              "\nThe allowed fields: " ++ ", ".intercalate fields ++
              ", request body: " ++ b,
             some body)) := by
  have hinv : (ρ.run 0 (makeHash rq)).find? (fun e => !Entries.has body e.1) = none →
      ∃ k fields, k ∈ Entries.keys body ∧ k ∉ rq ∧ k ∉ al ∧
        (∀ f, f ∈ fields ↔ f ∈ rq ∨ f ∈ al) ∧
        validateRequestBody ρ unmarshal b rq al ac
          = (400, "In the request body an invalid field is found: " ++ k ++
              "\nThe allowed fields: " ++ ", ".intercalate fields ++
              ", request body: " ++ b,
             some body) := by
    intro hreq
    have hmem : ∀ k, Entries.has (addKeys (ρ.run 1 (makeHash rq)) (makeHash al)) k = true
        ↔ k ∈ al ∨ k ∈ rq := by
      intro k
      rw [Entries.has_iff_mem_keys, mem_keys_addKeys, mem_keys_run, mem_keys_makeHash,
        mem_keys_makeHash]
    cases hf : (ρ.run 3 body).find?
        (fun e => !Entries.has (addKeys (ρ.run 1 (makeHash rq)) (makeHash al)) e.1) with
    | none =>
      exfalso
      obtain ⟨k, hk, hk1, hk2⟩ := hout
      rw [List.find?_eq_none] at hf
      obtain ⟨e, he, hek⟩ := List.mem_map.mp ((mem_keys_run ρ 3 body k).mpr hk)
      have h1 := hf e he
      rw [hek] at h1
      have h2 : Entries.has (addKeys (ρ.run 1 (makeHash rq)) (makeHash al)) k = true := by
        simpa using h1
      rcases (hmem k).mp h2 with h | h
      · exact hk2 h
      · exact hk1 h
    | some e =>
      have hp := List.find?_some hf
      have hnot : ¬ (e.1 ∈ al ∨ e.1 ∈ rq) := by
        rw [← hmem]
        simpa using hp
      refine ⟨e.1, (ρ.run 2 (addKeys (ρ.run 1 (makeHash rq)) (makeHash al))).map Prod.fst,
        ?_, fun h => hnot (Or.inr h), fun h => hnot (Or.inl h), ?_,
        validateRequestBody_invalid ρ unmarshal b rq al ac body e hdec hreq hal hf⟩
      · exact (mem_keys_run ρ 3 body e.1).mp
          (List.mem_map_of_mem Prod.fst (List.mem_of_find?_eq_some hf))
      · intro f
        have := mem_keys_run ρ 2 (addKeys (ρ.run 1 (makeHash rq)) (makeHash al)) f
        simp only [Entries.keys] at this
        rw [this]
        have h2 := hmem f
        rw [Entries.has_iff_mem_keys] at h2
        simp only [Entries.keys] at h2
        rw [h2]
        exact Or.comm
  constructor
  · cases hf : (ρ.run 0 (makeHash rq)).find? (fun e => !Entries.has body e.1) with
    | some e => rw [validateRequestBody_missing ρ unmarshal b rq al ac body e hdec hf]
    | none =>
      obtain ⟨k, fields, _, _, _, _, hres⟩ := hinv hf
      rw [hres]
  · intro hall
    exact hinv (required_find_none ρ rq body hall)

theorem validateRequestBody_outside_allowed_witness :
    ["description"] ≠ [] ∧
    sampleUnmarshal bodyTitleExtra = Except.ok (JsonValue.object
      [("title", JsonValue.string "t"), ("extra", JsonValue.string "x")]) ∧
    (validateRequestBody RangeOrder.inOrder sampleUnmarshal bodyTitleExtra
      ["title"] ["description"] []).1 = 400 ∧
    ∃ k fields,
      k ∈ Entries.keys [("title", JsonValue.string "t"), ("extra", JsonValue.string "x")] ∧
      k ∉ ["title"] ∧ k ∉ ["description"] ∧
      (∀ f, f ∈ fields ↔ f ∈ ["title"] ∨ f ∈ ["description"]) ∧
      validateRequestBody RangeOrder.inOrder sampleUnmarshal bodyTitleExtra
          ["title"] ["description"] []
        = (400, "In the request body an invalid field is found: " ++ k ++
            "\nThe allowed fields: " ++ ", ".intercalate fields ++
            ", request body: " ++ bodyTitleExtra,
           some [("title", JsonValue.string "t"), ("extra", JsonValue.string "x")]) :=
  ⟨by decide, rfl,
   (validateRequestBody_outside_allowed RangeOrder.inOrder sampleUnmarshal bodyTitleExtra
     ["title"] ["description"] []
     [("title", JsonValue.string "t"), ("extra", JsonValue.string "x")]
     (by decide) rfl ⟨"extra", by decide, by decide, by decide⟩).1,
   (validateRequestBody_outside_allowed RangeOrder.inOrder sampleUnmarshal bodyTitleExtra
     ["title"] ["description"] []
     [("title", JsonValue.string "t"), ("extra", JsonValue.string "x")]
     (by decide) rfl ⟨"extra", by decide, by decide, by decide⟩).2 (by decide)⟩

/-- C10 fails as stated: with accepted fields `extra`, allowed fields
`description` and required field `title`, the body with the keys `title` and
`extra` has every required field, yet the status is 400: the check against the
allowed fields comes first and rejects `extra`. -/
theorem validateRequestBody_accepted_counterexample :
    ["extra"] ≠ [] ∧
    sampleUnmarshal bodyTitleExtra = Except.ok (JsonValue.object
      [("title", JsonValue.string "t"), ("extra", JsonValue.string "x")]) ∧
    (∀ k ∈ ["title"],
      k ∈ Entries.keys [("title", JsonValue.string "t"), ("extra", JsonValue.string "x")]) ∧
    (validateRequestBody RangeOrder.inOrder sampleUnmarshal bodyTitleExtra
      ["title"] ["description"] ["extra"]).1 = 400 ∧
    (validateRequestBody RangeOrder.reversed sampleUnmarshal bodyTitleExtra
      ["title"] ["description"] ["extra"]).1 = 400 :=
  ⟨by decide, rfl, by decide, by decide, by decide⟩

/-- C10, amended: with a non-empty list of accepted fields and a body that
decodes to an object holding every required field, provided the list of
allowed fields is empty or every key of the body is a required or an allowed
field, `validateRequestBody` returns status 200, the empty message and the
decoded object restricted to the required, allowed and accepted fields: other
keys are dropped, the kept ones keep their values. -/
theorem validateRequestBody_accepted (ρ : RangeOrder)
    (unmarshal : String → Except String JsonValue) (b : String) (rq al ac : List String)
    (body : Entries JsonValue) (hac : ac ≠ [])
    (hdec : unmarshal b = Except.ok (JsonValue.object body))
    (hreq : ∀ k ∈ rq, k ∈ Entries.keys body)
    (hallowed : al = [] ∨ ∀ k ∈ Entries.keys body, k ∈ rq ∨ k ∈ al) :
    validateRequestBody ρ unmarshal b rq al ac
      = (200, "",
          some (body.filter (fun e => decide (e.1 ∈ rq ∨ e.1 ∈ al ∨ e.1 ∈ ac)))) := by
  rw [validateRequestBody_pass ρ unmarshal b rq al ac body hdec
    (required_find_none ρ rq body hreq)]
  · simp [hac]
  · intro hal
    rcases hallowed with h | h
    · exact absurd h hal
    · rw [List.find?_eq_none]
      intro e he
      have h1 : e.1 ∈ Entries.keys body :=
        (mem_keys_run ρ 3 body e.1).mp (List.mem_map_of_mem Prod.fst he)
      have h3 : Entries.has (addKeys (ρ.run 1 (makeHash rq)) (makeHash al)) e.1 = true := by
        rw [Entries.has_iff_mem_keys, mem_keys_addKeys, mem_keys_run, mem_keys_makeHash,
          mem_keys_makeHash]
        exact (h e.1 h1).symm
      simp [h3]

theorem validateRequestBody_accepted_witness :
    ["extra"] ≠ [] ∧
    sampleUnmarshal bodyTitleExtraJunk = Except.ok (JsonValue.object
      [("title", JsonValue.string "t"), ("extra", JsonValue.string "x"),
       ("junk", JsonValue.null)]) ∧
    validateRequestBody RangeOrder.reversed sampleUnmarshal bodyTitleExtraJunk
        ["title"] [] ["extra"]
      = (200, "", some ([("title", JsonValue.string "t"), ("extra", JsonValue.string "x"),
          ("junk", JsonValue.null)].filter
            (fun e => decide (e.1 ∈ ["title"] ∨ e.1 ∈ [] ∨ e.1 ∈ ["extra"])))) :=
  ⟨by decide, rfl,
   validateRequestBody_accepted RangeOrder.reversed sampleUnmarshal bodyTitleExtraJunk
     ["title"] [] ["extra"]
     [("title", JsonValue.string "t"), ("extra", JsonValue.string "x"),
      ("junk", JsonValue.null)]
     (by decide) rfl (by decide) (Or.inl rfl)⟩

/-! ## Filling a slice from a map -/

theorem take_succ_set {α : Type} (arr : List α) (i : Nat) (a : α) (h : i < arr.length) :
    (arr.set i a).take (i + 1) = arr.take i ++ [a] := by
  induction arr generalizing i with
  | nil => simp at h
  | cons x xs ih =>
    cases i with
    | zero => simp
    | succ j =>
      have hj : j < xs.length := by simpa using h
      simp [ih j hj]

theorem drop_set_lt {α : Type} (arr : List α) (i k : Nat) (a : α) (h : i < k) :
    (arr.set i a).drop k = arr.drop k := by
  induction arr generalizing i k with
  | nil => simp
  | cons x xs ih =>
    cases k with
    | zero => omega
    | succ k1 =>
      cases i with
      | zero => simp
      | succ j => simp [ih j k1 (by omega)]

/-- Outcome of the filling loop when it writes `m` elements: either the
entries run out after `m` writes, or the loop breaks right after the `m`-th. -/
theorem fillLoop_eq {α : Type} (stop : Nat → Bool) (visit : List (String × α)) :
    ∀ (arr : List α) (i m : Nat), i + m ≤ arr.length → m ≤ visit.length →
      (∀ j, i < j → j < i + m → stop j = false) →
      (m < visit.length → 0 < m ∧ stop (i + m) = true) →
      fillLoop stop visit arr i
        = some (arr.take i ++ (visit.take m).map Prod.snd ++ arr.drop (i + m)) := by
  induction visit with
  | nil =>
    intro arr i m _ hm _ _
    have : m = 0 := by simpa using hm
    subst this
    simp [fillLoop]
  | cons e rest ih =>
    intro arr i m hlen hm hmid hbrk
    obtain ⟨k, a⟩ := e
    have hpos : 0 < m := by
      by_contra h0
      have : m = 0 := by omega
      subst this
      exact absurd (hbrk (by simp)).1 (by omega)
    have hi : i < arr.length := by omega
    by_cases hs : stop (i + 1) = true
    · have hm1 : m = 1 := by
        by_contra hne
        have := hmid (i + 1) (by omega) (by omega)
        rw [hs] at this
        exact Bool.noConfusion this
      subst hm1
      simp only [fillLoop, hi, if_true, hs]
      rw [List.set_eq_take_append_cons_drop]
      simp [hi]
    · have hs1 : stop (i + 1) = false := by simpa using hs
      simp only [fillLoop, hi, if_true, hs1, Bool.false_eq_true, if_false]
      rw [ih (arr.set i a) (i + 1) (m - 1) (by simp; omega) (by simp at hm; omega)
        (fun j h1 h2 => hmid j (by omega) (by omega))
        (by
          intro hlt
          have hlt1 : m < (((k, a) :: rest) : List (String × α)).length := by
            simp; omega
          have := hbrk hlt1
          have hm2 : 1 < m := by
            by_contra hle
            have : m = 1 := by omega
            subst this
            rw [hs1] at this
            exact Bool.noConfusion this.2
          refine ⟨by omega, ?_⟩
          have e1 : i + 1 + (m - 1) = i + m := by omega
          rw [e1]
          exact this.2)]
      have e1 : i + 1 + (m - 1) = i + m := by omega
      rw [e1, take_succ_set arr i a hi, drop_set_lt arr i (i + m) a (by omega)]
      obtain ⟨m1, rfl⟩ : ∃ m1, m = m1 + 1 := ⟨m - 1, by omega⟩
      simp

/-! ## Alerts -/

theorem Store_GetAlerts_take {Alert : Type} [Inhabited Alert] (ρ : RangeOrder)
    (store : Store Alert) (since limit : Int) (hl : 1 ≤ limit) :
    Store.GetAlerts ρ store since limit
      = some (((ρ.run 0 store.alerts.entries).take
            (min limit.toNat store.alerts.len)).map Prod.snd,
          ((min limit.toNat store.alerts.len : Nat) : Int), none) := by
  have hvl : (ρ.run 0 store.alerts.entries).length = store.alerts.len :=
    (ρ.perm 0 store.alerts.entries).length_eq
  by_cases hn : store.alerts.len = 0
  · have hnil : ρ.run 0 store.alerts.entries = [] := List.length_eq_zero.mp (by omega)
    simp [Store.GetAlerts, hn, hnil]
  · obtain ⟨k, hk1, hk2, hk3⟩ : ∃ k : Nat, 1 ≤ k ∧ k = min limit.toNat store.alerts.len ∧
        (if limit > (store.alerts.len : Int) then (store.alerts.len : Int) else limit)
          = (k : Int) := by
      refine ⟨min limit.toNat store.alerts.len, by omega, rfl, ?_⟩
      split <;> omega
    have hsize : ¬ ((store.alerts.len : Int) = 0) := by omega
    have hfill := fillLoop_eq (fun i => decide ((i : Int) = (k : Int)))
      (ρ.run 0 store.alerts.entries) (List.replicate k (default : Alert)) 0 k
      (by simp) (by omega)
      (by intro j _ h2; simp; omega)
      (by intro _; exact ⟨by omega, by simp⟩)
    simp only [Store.GetAlerts, hsize, if_false, hk3, makeSlice]
    rw [if_neg (by omega)]
    simp only [Int.toNat_ofNat, hfill, ← hk2]
    simp

/-- For a non-empty store, a limit of zero makes `GetAlerts` write at index 0
of an empty slice and a negative limit makes it allocate a slice of negative
length: both panic. -/
theorem Store_GetAlerts_panics {Alert : Type} [Inhabited Alert] (ρ : RangeOrder)
    (store : Store Alert) (since limit : Int) (hn : 0 < store.alerts.len) (hl : limit ≤ 0) :
    Store.GetAlerts ρ store since limit = none := by
  have hvl : (ρ.run 0 store.alerts.entries).length = store.alerts.len :=
    (ρ.perm 0 store.alerts.entries).length_eq
  have hsize : ¬ ((store.alerts.len : Int) = 0) := by omega
  have hgt : ¬ (limit > (store.alerts.len : Int)) := by omega
  simp only [Store.GetAlerts, hsize, if_false, hgt, makeSlice]
  by_cases hneg : limit < 0
  · simp [hneg]
  · have h0 : limit = 0 := by omega
    subst h0
    cases hv : ρ.run 0 store.alerts.entries with
    | nil => rw [hv] at hvl; simp at hvl; omega
    | cons e rest => simp [fillLoop]

/-- C11: for every alert store, every limit of at least 1 and every `since`,
the logic layer's `GetAlerts` returns status 200 without error, the alerts of
`min limit n` distinct entries of the store (`n` the number of stored alerts)
and that count as total. -/
theorem Logic_GetAlerts_limit {Alert : Type} [Inhabited Alert] (ρ : RangeOrder)
    (lgc : Logic Alert) (since limit : Int) (hl : 1 ≤ limit) :
    ∃ es : List (String × Alert), es.Subperm lgc.store.alerts.entries ∧
      es.length = min limit.toNat lgc.store.alerts.len ∧
      Logic.GetAlerts ρ lgc since limit
        = some (es.map Prod.snd, (es.length : Int), 200, none) := by
  have hvl : (ρ.run 0 lgc.store.alerts.entries).length = lgc.store.alerts.len :=
    (ρ.perm 0 lgc.store.alerts.entries).length_eq
  refine ⟨(ρ.run 0 lgc.store.alerts.entries).take (min limit.toNat lgc.store.alerts.len),
    ?_, ?_, ?_⟩
  · exact (List.take_sublist _ _).subperm.trans (ρ.perm 0 lgc.store.alerts.entries).subperm
  · rw [List.length_take, hvl]
    omega
  · have hlen : ((ρ.run 0 lgc.store.alerts.entries).take
        (min limit.toNat lgc.store.alerts.len)).length
          = min limit.toNat lgc.store.alerts.len := by
      rw [List.length_take, hvl]
      omega
    simp only [Logic.GetAlerts, Store_GetAlerts_take ρ lgc.store since limit hl, hlen]

theorem Logic_GetAlerts_limit_witness :
    (1 : Int) ≤ 1 ∧
    (∃ es : List (String × String), es.Subperm threeAlerts.alerts.entries ∧
      es.length = min (1 : Int).toNat threeAlerts.alerts.len ∧
      Logic.GetAlerts RangeOrder.reversed { store := threeAlerts } 0 1
        = some (es.map Prod.snd, (es.length : Int), 200, none)) ∧
    Logic.GetAlerts RangeOrder.reversed { store := threeAlerts } 0 1
      = some (["net"], 1, 200, none) ∧
    Logic.GetAlerts RangeOrder.inOrder { store := noAlerts } 0 10 = some ([], 0, 200, none) :=
  ⟨by decide,
   Logic_GetAlerts_limit RangeOrder.reversed { store := threeAlerts } 0 1 (by decide),
   by decide, by decide⟩

/-- C20, evaluated on the code: on a store with three alerts, `GetAlerts` with
limit 0 and with limit -1 does not return: the first writes at index 0 of a
slice of length 0, the second allocates a slice of length -1. -/
theorem Store_GetAlerts_sample_panics :
    threeAlerts.alerts.len = 3 ∧
    Store.GetAlerts RangeOrder.inOrder threeAlerts 0 0 = none ∧
    Store.GetAlerts RangeOrder.inOrder threeAlerts 0 (-1) = none ∧
    Store.GetAlerts RangeOrder.inOrder threeAlerts 0 1 = some (["disk"], 1, none) := by
  decide

/-! ## Listing index sets and role members -/

/-- C18: `IndexSetList` returns the records of the store, each entry exactly
once and nothing else, so as many as the store holds; for the nil and for the
empty store it returns the empty list; the server is left as it was. -/
theorem IndexSetList_entries (ρ : RangeOrder) (ms : MockServer) :
    ∃ es : List (String × IndexSet), es.Perm ms.indexSets.entries ∧
      IndexSetList ρ ms = some (es.map Prod.snd, ms) ∧
      (es.map Prod.snd).length = ms.indexSets.len ∧
      ((ms.indexSets = none ∨ ms.indexSets = some []) → es.map Prod.snd = []) := by
  obtain ⟨im⟩ := ms
  cases im with
  | none => exact ⟨[], by simp [GoMap.entries], rfl, rfl, fun _ => rfl⟩
  | some m =>
    have hvl : (ρ.run 0 m).length = m.length := (ρ.perm 0 m).length_eq
    have hfill := fillLoop_eq (fun _ => false) (ρ.run 0 m)
      (List.replicate m.length (default : IndexSet)) 0 m.length
      (by simp) (by omega) (by intro _ _ _; rfl) (by intro h; omega)
    refine ⟨ρ.run 0 m, ρ.perm 0 m, ?_, ?_, ?_⟩
    · simp only [IndexSetList, makeSlice]
      rw [if_neg (by omega)]
      simp only [Int.toNat_ofNat, hfill]
      simp [← hvl]
    · simp [GoMap.len, GoMap.entries, hvl]
    · intro h
      rcases h with h | h
      · cases h
      · have : m = [] := by simpa using h
        subst this
        have : ρ.run 0 ([] : Entries IndexSet) = [] := List.length_eq_zero.mp (by simpa using hvl)
        simp [this]

/-- C19: for a list of names without duplicates, `addToStringArray` gives a
list that holds the value exactly once and starts with the given list, and
adding the same value again changes nothing. -/
theorem addToStringArray_once (arr : List String) (val : String) (hnd : arr.Nodup) :
    (addToStringArray arr val).count val = 1 ∧
    arr <+: addToStringArray arr val ∧
    addToStringArray (addToStringArray arr val) val = addToStringArray arr val := by
  by_cases hmem : val ∈ arr
  · have hany : arr.any (fun v => decide (v = val)) = true := by
      simpa using hmem
    simp only [addToStringArray, hany, if_true]
    exact ⟨List.count_eq_one_of_mem hnd hmem, List.prefix_refl _, trivial⟩
  · have hany : arr.any (fun v => decide (v = val)) = false := by
      rw [List.any_eq_false]
      intro x hx hx1
      exact hmem ((of_decide_eq_true hx1) ▸ hx)
    have hany2 : (arr ++ [val]).any (fun v => decide (v = val)) = true := by
      simp
    simp only [addToStringArray, hany, Bool.false_eq_true, if_false, hany2, if_true]
    refine ⟨?_, List.prefix_append _ _, trivial⟩
    rw [List.count_append, List.count_eq_zero_of_not_mem hmem]
    simp

theorem addToStringArray_once_witness :
    ["admin", "reader"].Nodup ∧
    (addToStringArray ["admin", "reader"] "guest").count "guest" = 1 ∧
    ["admin", "reader"] <+: addToStringArray ["admin", "reader"] "guest" ∧
    addToStringArray (addToStringArray ["admin", "reader"] "guest") "guest"
      = addToStringArray ["admin", "reader"] "guest" :=
  ⟨by decide, addToStringArray_once ["admin", "reader"] "guest" (by decide)⟩

/-! ## The authenticating wrapper -/

theorem wrapHandle_of_invokes {U P : Type} (auth : Bool)
    (Authenticate : String → String → Option U × Int × Option String)
    (marshalAPIError : APIError → Except String String) (marshal : P → Except String String)
    (handler : Option U → Option P × Int × Option String)
    (basicAuth : Option (String × String)) (user : Option U)
    (h : Invokes auth Authenticate basicAuth user) :
    wrapHandle auth Authenticate marshalAPIError marshal handler basicAuth
      = Effect.setHeader "Content-Type" "application/json" ::
          invokeAndRespond marshalAPIError marshal handler user := by
  rcases h with ⟨ha, hu⟩ | ⟨ha, name, pass, sc, u, hb, hauth, hu⟩
  · subst ha; subst hu
    simp [wrapHandle]
  · subst ha; subst hb; subst hu
    simp [wrapHandle, hauth]

/-- With authentication enabled, when `Authenticate` returns a nil user and no
error, the read of `user.Username` panics: nothing is written and the bound
handler is not called. -/
theorem wrapHandle_nil_user {U P : Type}
    (Authenticate : String → String → Option U × Int × Option String)
    (marshalAPIError : APIError → Except String String) (marshal : P → Except String String)
    (handler : Option U → Option P × Int × Option String)
    (name pass : String) (sc : Int) (hauth : Authenticate name pass = (none, sc, none)) :
    wrapHandle true Authenticate marshalAPIError marshal handler (some (name, pass))
      = [Effect.setHeader "Content-Type" "application/json", Effect.panic] := by
  simp [wrapHandle, hauth]

/-- The bound handler is called exactly when `Invokes` holds for some user. -/
theorem invoked_iff_Invokes {U P : Type} (auth : Bool)
    (Authenticate : String → String → Option U × Int × Option String)
    (marshalAPIError : APIError → Except String String) (marshal : P → Except String String)
    (handler : Option U → Option P × Int × Option String)
    (basicAuth : Option (String × String)) :
    invoked (wrapHandle auth Authenticate marshalAPIError marshal handler basicAuth) = true
      ↔ ∃ user, Invokes auth Authenticate basicAuth user := by
  constructor
  · intro h
    cases auth with
    | false => exact ⟨none, Or.inl ⟨rfl, rfl⟩⟩
    | true =>
      cases basicAuth with
      | none => simp [wrapHandle, invoked] at h
      | some np =>
        obtain ⟨name, pass⟩ := np
        rcases hres : Authenticate name pass with ⟨u, sc, e⟩
        cases e with
        | some err =>
          exfalso
          by_cases hsc : sc = 401
          · simp [wrapHandle, hres, hsc, invoked] at h
          · cases hm : marshalAPIError (NewAPIError err) with
            | error e1 => simp [wrapHandle, hres, hsc, hm, invoked] at h
            | ok b => simp [wrapHandle, hres, hsc, hm, invoked] at h
        | none =>
          cases u with
          | none => simp [wrapHandle, hres, invoked] at h
          | some u1 => exact ⟨some u1, Or.inr ⟨rfl, name, pass, sc, u1, rfl, hres, rfl⟩⟩
  · rintro ⟨user, h⟩
    rw [wrapHandle_of_invokes auth Authenticate marshalAPIError marshal handler basicAuth user h]
    simp [invokeAndRespond, invoked]

/-- C12: with authentication enabled, a request without a basic-auth header
gets status 401 and nothing else: no body is written and the bound handler is
not called. -/
theorem wrapHandle_no_credentials {U P : Type}
    (Authenticate : String → String → Option U × Int × Option String)
    (marshalAPIError : APIError → Except String String) (marshal : P → Except String String)
    (handler : Option U → Option P × Int × Option String) :
    wrapHandle true Authenticate marshalAPIError marshal handler none
      = [Effect.setHeader "Content-Type" "application/json", Effect.writeHeader 401] ∧
    statusOf (wrapHandle true Authenticate marshalAPIError marshal handler none) = 401 ∧
    bodiesOf (wrapHandle true Authenticate marshalAPIError marshal handler none) = [] ∧
    invoked (wrapHandle true Authenticate marshalAPIError marshal handler none) = false := by
  simp [wrapHandle, statusOf, bodiesOf, invoked]

/-- C13: with authentication enabled and a basic-auth header, when
`Authenticate` fails with status `sc` the wrapper writes status `sc` and does
not call the bound handler; for `sc = 401` it writes no body, for any other
`sc` the body is the serialized API error made from the text of the
authentication error. -/
theorem wrapHandle_auth_failure {U P : Type}
    (Authenticate : String → String → Option U × Int × Option String)
    (marshalAPIError : APIError → Except String String) (marshal : P → Except String String)
    (handler : Option U → Option P × Int × Option String)
    (name pass : String) (u : Option U) (sc : Int) (err : String)
    (hauth : Authenticate name pass = (u, sc, some err)) :
    statusOf (wrapHandle true Authenticate marshalAPIError marshal handler (some (name, pass)))
      = sc ∧
    invoked (wrapHandle true Authenticate marshalAPIError marshal handler (some (name, pass)))
      = false ∧
    (sc = 401 →
      wrapHandle true Authenticate marshalAPIError marshal handler (some (name, pass))
        = [Effect.setHeader "Content-Type" "application/json", Effect.writeHeader 401]) ∧
    (sc ≠ 401 → ∀ b, marshalAPIError (NewAPIError err) = Except.ok b →
      wrapHandle true Authenticate marshalAPIError marshal handler (some (name, pass))
        = [Effect.setHeader "Content-Type" "application/json", Effect.writeHeader sc,
           Effect.write b]) := by
  by_cases hsc : sc = 401
  · subst hsc
    simp [wrapHandle, hauth, statusOf, invoked]
  · cases hm : marshalAPIError (NewAPIError err) with
    | error e => simp [wrapHandle, hauth, hsc, hm, statusOf, invoked]
    | ok b => simp [wrapHandle, hauth, hsc, hm, statusOf, invoked]

theorem wrapHandle_auth_failure_witness :
    sampleAuthenticate "ghost" "x" = (none, 500, some "user lookup failed") ∧
    sampleAuthenticate "eve" "x" = (none, 401, some "authentication failed") ∧
    wrapHandle true sampleAuthenticate sampleMarshalAPIError sampleMarshal sampleHandler
        (some ("ghost", "x"))
      = [Effect.setHeader "Content-Type" "application/json", Effect.writeHeader 500,
         Effect.write "\x7b\"type\":\"ApiError\",\"message\":\"user lookup failed\"\x7d"] ∧
    wrapHandle true sampleAuthenticate sampleMarshalAPIError sampleMarshal sampleHandler
        (some ("eve", "x"))
      = [Effect.setHeader "Content-Type" "application/json", Effect.writeHeader 401] :=
  ⟨by decide, by decide,
   (wrapHandle_auth_failure sampleAuthenticate sampleMarshalAPIError sampleMarshal
      sampleHandler "ghost" "x" none 500 "user lookup failed" (by decide)).2.2.2
      (by decide) _ rfl,
   (wrapHandle_auth_failure sampleAuthenticate sampleMarshalAPIError sampleMarshal
      sampleHandler "eve" "x" none 401 "authentication failed" (by decide)).2.2.1 rfl⟩

/-- C14: when the bound handler is called and returns an error with status
`sc`, whatever payload comes with it, the wrapper writes status `sc` and then
one body: the serialized API error made from the error text (the fixed text
`failed to marshal an APIError` if `json.Marshal` fails on it). The payload is
not written. -/
theorem wrapHandle_handler_error {U P : Type} (auth : Bool)
    (Authenticate : String → String → Option U × Int × Option String)
    (marshalAPIError : APIError → Except String String) (marshal : P → Except String String)
    (handler : Option U → Option P × Int × Option String)
    (basicAuth : Option (String × String)) (user : Option U)
    (payload : Option P) (sc : Int) (err : String)
    (hinv : Invokes auth Authenticate basicAuth user)
    (hres : handler user = (payload, sc, some err)) :
    wrapHandle auth Authenticate marshalAPIError marshal handler basicAuth
      = [Effect.setHeader "Content-Type" "application/json", Effect.invoke user,
         Effect.writeHeader sc,
         Effect.write
           (match marshalAPIError (NewAPIError err) with
            | Except.ok b => b
            | Except.error _ => "\x7b\"message\":\"failed to marshal an APIError\"\x7d")] ∧
    statusOf (wrapHandle auth Authenticate marshalAPIError marshal handler basicAuth) = sc := by
  rw [wrapHandle_of_invokes auth Authenticate marshalAPIError marshal handler basicAuth user hinv]
  cases hm : marshalAPIError (NewAPIError err) with
  | error e => simp [invokeAndRespond, hres, hm, statusOf]
  | ok b => simp [invokeAndRespond, hres, hm, statusOf]

theorem wrapHandle_handler_error_witness :
    Invokes true sampleAuthenticate (some ("admin", "password")) (some "admin") ∧
    sampleHandler (some "admin") = (some "ignored", 404, some "no such stream") ∧
    wrapHandle true sampleAuthenticate sampleMarshalAPIError sampleMarshal sampleHandler
        (some ("admin", "password"))
      = [Effect.setHeader "Content-Type" "application/json", Effect.invoke (some "admin"),
         Effect.writeHeader 404,
         Effect.write "\x7b\"type\":\"ApiError\",\"message\":\"no such stream\"\x7d"] :=
  ⟨Or.inr ⟨rfl, "admin", "password", 200, "admin", rfl, by decide, rfl⟩, by decide,
   (wrapHandle_handler_error true sampleAuthenticate sampleMarshalAPIError sampleMarshal
      sampleHandler (some ("admin", "password")) (some "admin") (some "ignored") 404
      "no such stream" (Or.inr ⟨rfl, "admin", "password", 200, "admin", rfl, by decide, rfl⟩)
      (by decide)).1⟩

/-- C15: when the bound handler is called and returns no error: for a nil
payload the wrapper writes nothing; for a payload that serializes, the JSON is
the only thing written, without any status code, so the response has status
200 whatever status the handler returned; when serialization fails, status 500
and the fixed body are written. -/
theorem wrapHandle_handler_success {U P : Type} (auth : Bool)
    (Authenticate : String → String → Option U × Int × Option String)
    (marshalAPIError : APIError → Except String String) (marshal : P → Except String String)
    (handler : Option U → Option P × Int × Option String)
    (basicAuth : Option (String × String)) (user : Option U)
    (payload : Option P) (sc : Int)
    (hinv : Invokes auth Authenticate basicAuth user)
    (hres : handler user = (payload, sc, none)) :
    (payload = none →
      wrapHandle auth Authenticate marshalAPIError marshal handler basicAuth
        = [Effect.setHeader "Content-Type" "application/json", Effect.invoke user]) ∧
    (∀ p b, payload = some p → marshal p = Except.ok b →
      wrapHandle auth Authenticate marshalAPIError marshal handler basicAuth
        = [Effect.setHeader "Content-Type" "application/json", Effect.invoke user,
           Effect.write b] ∧
      statusOf (wrapHandle auth Authenticate marshalAPIError marshal handler basicAuth)
        = 200) ∧
    (∀ p e, payload = some p → marshal p = Except.error e →
      wrapHandle auth Authenticate marshalAPIError marshal handler basicAuth
        = [Effect.setHeader "Content-Type" "application/json", Effect.invoke user,
           Effect.writeHeader 500,
           Effect.write "\x7b\"message\":\"500 Internal Server Error\"\x7d"]) := by
  rw [wrapHandle_of_invokes auth Authenticate marshalAPIError marshal handler basicAuth user hinv]
  refine ⟨?_, ?_, ?_⟩
  · intro hp
    subst hp
    simp [invokeAndRespond, hres]
  · intro p b hp hm
    subst hp
    simp [invokeAndRespond, hres, hm, statusOf]
  · intro p e hp hm
    subst hp
    simp [invokeAndRespond, hres, hm]

theorem wrapHandle_handler_success_witness :
    Invokes false sampleAuthenticate none (none : Option String) ∧
    sampleHandler none = (some "[1,2]", 201, none) ∧
    wrapHandle false sampleAuthenticate sampleMarshalAPIError sampleMarshal sampleHandler none
      = [Effect.setHeader "Content-Type" "application/json", Effect.invoke none,
         Effect.write "[1,2]"] ∧
    statusOf (wrapHandle false sampleAuthenticate sampleMarshalAPIError sampleMarshal
      sampleHandler none) = 200 :=
  ⟨Or.inl ⟨rfl, rfl⟩, by decide,
   (wrapHandle_handler_success false sampleAuthenticate sampleMarshalAPIError sampleMarshal
      sampleHandler none none (some "[1,2]") 201 (Or.inl ⟨rfl, rfl⟩) (by decide)).2.1
      "[1,2]" "[1,2]" rfl rfl⟩

/-! ## Identifier generator -/

theorem letterBytes_getD_mem (idx : Nat) (h : idx < letterBytes.length) :
    letterBytes.data.getD idx default ∈ letterBytes.data := by
  have h1 : idx < letterBytes.data.length := h
  rw [List.getD_eq_getElem _ _ h1]
  exact List.getElem_mem h1

theorem drop_set_self {α : Type} (b : List α) (k : Nat) (a : α) (h : k < b.length) :
    (b.set k a).drop k = a :: b.drop (k + 1) := by
  induction b generalizing k with
  | nil => simp at h
  | cons x xs ih =>
    cases k with
    | zero => simp
    | succ j =>
      have hj : j < xs.length := by simpa using h
      simpa using ih j hj

/-- Invariant of the loop: the slice keeps its length and everything to the
right of position `i` is a letter. -/
theorem randLoop_letters : ∀ (fuel : Nat) (src : RandSource) (i : Int) (cache remain : Nat)
    (b out : List Char) (src1 : RandSource),
    randLoop fuel src i cache remain b = some (out, src1) →
    -1 ≤ i → i + 1 ≤ (b.length : Int) →
    (∀ c ∈ b.drop (i + 1).toNat, c ∈ letterBytes.data) →
    out.length = b.length ∧ ∀ c ∈ out, c ∈ letterBytes.data := by
  intro fuel
  induction fuel with
  | zero =>
    intro src i cache remain b out src1 h
    simp [randLoop] at h
  | succ fuel ih =>
    intro src i cache remain b out src1 h hlo hhi hinv
    unfold randLoop at h
    by_cases hi : 0 ≤ i
    · simp only [hi, if_true] at h
      generalize (if remain = 0 then (src.Int63.1, letterIdxMax, src.Int63.2)
        else (cache, remain, src)) = r at h
      by_cases hidx : r.1 &&& letterIdxMask < letterBytes.length
      · simp only [hidx, if_true] at h
        obtain ⟨k, rfl⟩ : ∃ k : Nat, i = (k : Int) := ⟨i.toNat, (Int.toNat_of_nonneg hi).symm⟩
        have hk : k < b.length := by omega
        have e1 : ((k : Int) - 1 + 1).toNat = k := by omega
        have e2 : ((k : Int) + 1).toNat = k + 1 := by omega
        have e3 : ((k : Int)).toNat = k := by omega
        have := ih _ _ _ _ _ _ _ h (by omega) (by simp; omega)
          (by
            rw [e1, e3, drop_set_self b k _ hk]
            intro c hc
            rcases List.mem_cons.mp hc with hc | hc
            · rw [hc]; exact letterBytes_getD_mem _ hidx
            · rw [e2] at hinv; exact hinv c hc)
        simpa using this
      · simp only [hidx, if_false] at h
        exact ih _ _ _ _ _ _ _ h hlo hhi hinv
    · simp only [hi, if_false, Option.some.injEq, Prod.mk.injEq] at h
      have hm : i = -1 := by omega
      subst hm
      rw [← h.1]
      exact ⟨rfl, by simpa using hinv⟩

theorem lettersOf_cons_valid (g : Nat) (groups : List Nat) (k : Nat)
    (h : validGroup g = true) :
    lettersOf (g :: groups) (k + 1) = letterOf g :: lettersOf groups k := by
  simp [lettersOf, List.filter_cons, h]

theorem lettersOf_cons_invalid (g : Nat) (groups : List Nat) (k : Nat)
    (h : validGroup g = false) :
    lettersOf (g :: groups) k = lettersOf groups k := by
  simp [lettersOf, List.filter_cons, h]

/-- What a finished loop has done: it drew `src1.pos - src.pos` values, and to
the left of the part of the slice it was given as done it wrote, from right to
left, the letters of the first valid groups it read, skipping the others. -/
theorem randLoop_groups : ∀ (fuel : Nat) (src : RandSource) (i : Int) (cache remain : Nat)
    (b out : List Char) (src1 : RandSource),
    randLoop fuel src i cache remain b = some (out, src1) →
    -1 ≤ i → i + 1 ≤ (b.length : Int) →
    src1.values = src.values ∧ src.pos ≤ src1.pos ∧
    (lettersOf (pendingGroups cache remain ++
        groupStream src.values src.pos (src1.pos - src.pos)) (i + 1).toNat).length
      = (i + 1).toNat ∧
    out = (lettersOf (pendingGroups cache remain ++
        groupStream src.values src.pos (src1.pos - src.pos)) (i + 1).toNat).reverse
      ++ b.drop (i + 1).toNat := by
  intro fuel
  induction fuel with
  | zero =>
    intro src i cache remain b out src1 h
    simp [randLoop] at h
  | succ fuel ih =>
    intro src i cache remain b out src1 h hlo hhi
    unfold randLoop at h
    by_cases hi : 0 ≤ i
    · simp only [hi, if_true] at h
      have step : ∀ (c rm : Nat) (src2 : RandSource),
          src2.values = src.values → src.pos ≤ src2.pos →
          (src2.pos ≤ src1.pos →
            pendingGroups cache remain ++ groupStream src.values src.pos (src1.pos - src.pos)
              = (c &&& letterIdxMask) :: (pendingGroups (c >>> letterIdxBits) (rm - 1) ++
                  groupStream src2.values src2.pos (src1.pos - src2.pos))) →
          (if c &&& letterIdxMask < letterBytes.length then
              randLoop fuel src2 (i - 1) (c >>> letterIdxBits) (rm - 1)
                (b.set i.toNat (letterBytes.data.getD (c &&& letterIdxMask) default))
            else randLoop fuel src2 i (c >>> letterIdxBits) (rm - 1) b) = some (out, src1) →
          src1.values = src.values ∧ src.pos ≤ src1.pos ∧
          (lettersOf (pendingGroups cache remain ++
              groupStream src.values src.pos (src1.pos - src.pos)) (i + 1).toNat).length
            = (i + 1).toNat ∧
          out = (lettersOf (pendingGroups cache remain ++
              groupStream src.values src.pos (src1.pos - src.pos)) (i + 1).toNat).reverse
            ++ b.drop (i + 1).toNat := by
        intro c rm src2 hv hp hG hrun
        obtain ⟨k, rfl⟩ : ∃ k : Nat, i = (k : Int) := ⟨i.toNat, (Int.toNat_of_nonneg hi).symm⟩
        have hk : k < b.length := by omega
        have e1 : ((k : Int) - 1 + 1).toNat = k := by omega
        have e2 : ((k : Int) + 1).toNat = k + 1 := by omega
        have e3 : ((k : Int)).toNat = k := by omega
        by_cases hidx : c &&& letterIdxMask < letterBytes.length
        · simp only [hidx, if_true] at hrun
          obtain ⟨h1, h2, h3, h4⟩ := ih _ _ _ _ _ _ _ hrun (by omega) (by simp; omega)
          rw [e1] at h3 h4
          rw [e3, drop_set_self b k _ hk] at h4
          have hvalid : validGroup (c &&& letterIdxMask) = true := by
            simpa [validGroup] using hidx
          refine ⟨h1.trans hv, by omega, ?_, ?_⟩
          · rw [e2, hG h2, lettersOf_cons_valid _ _ _ hvalid]
            simp [h3]
          · rw [e2, hG h2, lettersOf_cons_valid _ _ _ hvalid, h4]
            simp [letterOf]
        · simp only [hidx, if_false] at hrun
          obtain ⟨h1, h2, h3, h4⟩ := ih _ _ _ _ _ _ _ hrun hlo hhi
          have hinvalid : validGroup (c &&& letterIdxMask) = false := by
            simpa [validGroup] using hidx
          refine ⟨h1.trans hv, by omega, ?_, ?_⟩
          · rw [hG h2, lettersOf_cons_invalid _ _ _ hinvalid]
            exact h3
          · rw [hG h2, lettersOf_cons_invalid _ _ _ hinvalid]
            exact h4
      by_cases hr : remain = 0
      · subst hr
        simp only [if_true] at h
        refine step src.Int63.1 letterIdxMax src.Int63.2 rfl (by simp [RandSource.Int63])
          ?_ h
        intro hle
        have hle1 : src.pos + 1 ≤ src1.pos := hle
        obtain ⟨q, hq⟩ : ∃ q, src1.pos - src.pos = q + 1 := ⟨src1.pos - src.pos - 1, by omega⟩
        have hq2 : src1.pos - src.Int63.2.pos = q := by
          show src1.pos - (src.pos + 1) = q
          omega
        rw [hq, hq2]
        rfl
      · simp only [hr, if_false] at h
        refine step cache remain src rfl (le_refl _) ?_ h
        intro _
        obtain ⟨r0, rfl⟩ : ∃ r0, remain = r0 + 1 := ⟨remain - 1, by omega⟩
        simp [pendingGroups]
    · simp only [hi, if_false, Option.some.injEq, Prod.mk.injEq] at h
      have hm : i = -1 := by omega
      subst hm
      rw [← h.1, ← h.2]
      simp [lettersOf]

/-- C17: for every length `n ≥ 0` and every random source on which the loop
finishes (within the given fuel), `randStringBytesMaskImprSrc` returns a
string of exactly `n` characters, each one of the 52 letters of `letterBytes`,
all of them alphabetic. Read from right to left, the string is the letters of
the first `n` valid 6-bit groups of the values drawn, where the valid groups
are those below 52: a group of 52 to 63 is skipped, wherever it stands. In the
loop, a step whose group is 52 or more, taken from the cache or from a fresh
draw, writes nothing and leaves the position as it was. -/
theorem randStringBytesMaskImprSrc_letters (fuel : Nat) (src : RandSource) (n : Int)
    (s : String) (src1 : RandSource) (hn : 0 ≤ n)
    (h : randStringBytesMaskImprSrc fuel src n = some (s, src1)) :
    s.length = n.toNat ∧
    (∀ c ∈ s.data, c ∈ letterBytes.data) ∧
    letterBytes.length = 52 ∧ (∀ c ∈ letterBytes.data, c.isAlpha = true) ∧
    src1.values = src.values ∧ src.pos < src1.pos ∧
    s.data.reverse
      = lettersOf (groupStream src.values src.pos (src1.pos - src.pos)) n.toNat ∧
    (∀ g, validGroup g = true ↔ g < 52) ∧
    (∀ (fuel1 : Nat) (src2 : RandSource) (i : Int) (cache remain : Nat) (b : List Char),
      0 ≤ i →
      52 ≤ (if remain = 0 then src2.Int63.1 else cache) &&& letterIdxMask →
      randLoop (fuel1 + 1) src2 i cache remain b
        = randLoop fuel1 (if remain = 0 then src2.Int63.2 else src2) i
            ((if remain = 0 then src2.Int63.1 else cache) >>> letterIdxBits)
            ((if remain = 0 then letterIdxMax else remain) - 1) b) := by
  have hmake : makeBytes n = some (List.replicate n.toNat (Char.ofNat 0)) := by
    simp [makeBytes]; omega
  have hlen52 : letterBytes.length = 52 := by decide
  cases hl : randLoop fuel src.Int63.2 (n - 1) src.Int63.1 letterIdxMax
      (List.replicate n.toNat (Char.ofNat 0)) with
  | none => simp only [randStringBytesMaskImprSrc, hmake, hl] at h; cases h
  | some r =>
    obtain ⟨b1, src3⟩ := r
    simp only [randStringBytesMaskImprSrc, hmake, hl, Option.some.injEq, Prod.mk.injEq] at h
    have hinv := randLoop_letters fuel _ _ _ _ _ _ _ hl (by omega) (by simp)
      (by
        have e : (n - 1 + 1).toNat = n.toNat := by simp
        rw [e]
        simp)
    obtain ⟨g1, g2, _, g4⟩ := randLoop_groups fuel _ _ _ _ _ _ _ hl (by omega) (by simp)
    have e : (n - 1 + 1).toNat = n.toNat := by simp
    rw [e] at g4
    have hpos : src.pos + 1 ≤ src3.pos := g2
    refine ⟨?_, ?_, hlen52, by decide, ?_, ?_, ?_, ?_, ?_⟩
    · rw [← h.1]
      simpa [String.length] using hinv.1
    · rw [← h.1]
      exact hinv.2
    · rw [← h.2]
      exact g1
    · rw [← h.2]
      omega
    · obtain ⟨q, hq⟩ : ∃ q, src3.pos - src.pos = q + 1 := ⟨src3.pos - src.pos - 1, by omega⟩
      have hq2 : src3.pos - src.Int63.2.pos = q := by
        show src3.pos - (src.pos + 1) = q
        omega
      rw [← h.1, ← h.2, hq]
      rw [hq2] at g4
      show b1.reverse = _
      rw [g4]
      simp only [List.drop_replicate, Nat.sub_self, List.replicate_zero, List.append_nil,
        List.reverse_reverse]
      rfl
    · intro g
      simp [validGroup, hlen52]
    · intro fuel1 src2 i cache remain b hi hidx
      by_cases hr : remain = 0
      · subst hr
        simp only [if_true] at hidx
        have hnot : ¬ (src2.Int63.1 &&& letterIdxMask < letterBytes.length) := by omega
        simp [randLoop, hi, hnot]
      · simp only [hr, if_false] at hidx
        have hnot : ¬ (cache &&& letterIdxMask < letterBytes.length) := by omega
        simp [randLoop, hi, hr, hnot]

theorem randStringBytesMaskImprSrc_letters_witness :
    (0 : Int) ≤ 10 ∧
    randStringBytesMaskImprSrc 20 (constSource 127) 10
      = some ("baaaaaaaab", { values := fun _ => 127, pos := 2 }) ∧
    ("baaaaaaaab" : String).length = (10 : Int).toNat ∧
    (∀ c ∈ ("baaaaaaaab" : String).data, c ∈ letterBytes.data) ∧
    ("baaaaaaaab" : String).data.reverse
      = lettersOf (groupStream (fun _ => 127) 0 (2 - 0)) (10 : Int).toNat ∧
    groupStream (fun _ => 127) 0 2
      = [63, 1, 0, 0, 0, 0, 0, 0, 0, 0, 63, 1, 0, 0, 0, 0, 0, 0, 0, 0] :=
  ⟨by decide, by rfl,
   (randStringBytesMaskImprSrc_letters 20 (constSource 127) 10
      "baaaaaaaab" { values := fun _ => 127, pos := 2 } (by decide) (by rfl)).1,
   (randStringBytesMaskImprSrc_letters 20 (constSource 127) 10
      "baaaaaaaab" { values := fun _ => 127, pos := 2 } (by decide) (by rfl)).2.1,
   (randStringBytesMaskImprSrc_letters 20 (constSource 127) 10
      "baaaaaaaab" { values := fun _ => 127, pos := 2 } (by decide) (by rfl)).2.2.2.2.2.2.1,
   by decide⟩

/-- On a source whose values only hold valid 6-bit groups (`Good` is kept by
the shift and forces the low group below 52), the loop ends within `i + 2`
tests. -/
theorem randLoop_finishes (Good : Nat → Prop)
    (hshift : ∀ c, Good c → Good (c >>> letterIdxBits))
    (hlow : ∀ c, Good c → c &&& letterIdxMask < letterBytes.length) :
    ∀ (fuel : Nat) (src : RandSource) (i : Int) (cache remain : Nat) (b : List Char),
      (∀ p, Good (src.values p % 2 ^ 63)) → Good cache → -1 ≤ i → i + 1 < (fuel : Int) →
      ∃ out src1, randLoop fuel src i cache remain b = some (out, src1) := by
  intro fuel
  induction fuel with
  | zero =>
    intro src i cache remain b _ _ hlo hf
    omega
  | succ fuel ih =>
    intro src i cache remain b hsrc hc hlo hf
    unfold randLoop
    by_cases hi : 0 ≤ i
    · simp only [hi, if_true]
      by_cases hr : remain = 0
      · have hg : Good src.Int63.1 := hsrc src.pos
        have hidx := hlow _ hg
        simp only [hr, if_true, hidx]
        exact ih _ _ _ _ _ hsrc (hshift _ hg) (by omega) (by push_cast at hf ⊢; omega)
      · have hidx := hlow _ hc
        simp only [hr, if_false, hidx, if_true]
        exact ih _ _ _ _ _ hsrc (hshift _ hc) (by omega) (by push_cast at hf ⊢; omega)
    · simp only [hi, if_false]
      exact ⟨b, src, rfl⟩

/-- On a source whose values only hold valid 6-bit groups,
`randStringBytesMaskImprSrc` returns for every `n ≥ 0` once the fuel exceeds
`n`. -/
theorem randStringBytesMaskImprSrc_finishes (Good : Nat → Prop)
    (hshift : ∀ c, Good c → Good (c >>> letterIdxBits))
    (hlow : ∀ c, Good c → c &&& letterIdxMask < letterBytes.length)
    (src : RandSource) (hsrc : ∀ p, Good (src.values p % 2 ^ 63)) (n : Int) (hn : 0 ≤ n)
    (fuel : Nat) (hf : n < (fuel : Int)) :
    ∃ s src1, randStringBytesMaskImprSrc fuel src n = some (s, src1) := by
  have hmake : makeBytes n = some (List.replicate n.toNat (Char.ofNat 0)) := by
    simp [makeBytes]; omega
  obtain ⟨out, src1, hrun⟩ := randLoop_finishes Good hshift hlow fuel src.Int63.2 (n - 1)
    src.Int63.1 letterIdxMax (List.replicate n.toNat (Char.ofNat 0)) hsrc (hsrc src.pos)
    (by omega) (by omega)
  exact ⟨String.mk out, src1, by simp only [randStringBytesMaskImprSrc, hmake, hrun]⟩

/-! ## Reading back an error body -/

theorem jsonStringBody_plain (cs rest : List Char)
    (h : ∀ c ∈ cs, c ≠ quoteChar ∧ c ≠ backslashChar ∧ 32 ≤ c.toNat) :
    jsonStringBody (cs ++ quoteChar :: rest) = some (cs, rest) := by
  induction cs with
  | nil =>
    rw [List.nil_append, jsonStringBody.eq_def]
    simp
  | cons c cs ih =>
    have hc := h c (List.mem_cons_self _ _)
    have hlt : ¬ c.toNat < 32 := by omega
    have := ih (fun d hd => h d (List.mem_cons_of_mem _ hd))
    rw [List.cons_append, jsonStringBody.eq_def]
    simp [hc.1, hc.2.1, hlt, this]

/-- C16, evaluated on the code: for the error text of `AddIndexSet` on a
duplicate prefix, which holds double quotes, the body `writeApiError` writes is
not a JSON text; for a text with a backslash the body is a JSON text whose
message is another text; a text without such characters is read back as it
was. -/
theorem writeApiError_sample_bodies :
    writtenBodies (writeApiError 400 (conflictMsg "graylog"))
      = ["\x7b\"type\": \"ApiError\", \"message\": \"Index prefix \"graylog\" would conflict with an existing index set!\"\x7d"] ∧
    (writtenBodies (writeApiError 400 (conflictMsg "graylog"))).map decodeAPIError = [none] ∧
    (writtenBodies (writeApiError 400 ("C:" ++ String.mk [backslashChar] ++ "temp"))).map
        decodeAPIError
      = [some (NewAPIError ("C:" ++ String.mk [Char.ofNat 9] ++ "emp"))] ∧
    (writtenBodies (writeApiError 404 "No indexSet found with id abc")).map decodeAPIError
      = [some (NewAPIError "No indexSet found with id abc")] := by
  decide

theorem skipWs_cons (c : Char) (rest : List Char)
    (h : ¬ (c.toNat = 32 ∨ c.toNat = 9 ∨ c.toNat = 10 ∨ c.toNat = 13)) :
    skipWs (c :: rest) = c :: rest := by
  simp only [skipWs, h, if_false]

theorem skipWs_space (rest : List Char) : skipWs (Char.ofNat 32 :: rest) = skipWs rest := by
  rw [skipWs]
  exact if_pos (Or.inl (by decide))

theorem expectChar_cons (c : Char) (rest : List Char)
    (h : ¬ (c.toNat = 32 ∨ c.toNat = 9 ∨ c.toNat = 10 ∨ c.toNat = 13)) :
    expectChar c (c :: rest) = some rest := by
  simp [expectChar, skipWs_cons c rest h]

theorem jsonString_plain (cs rest : List Char)
    (h : ∀ c ∈ cs, c ≠ quoteChar ∧ c ≠ backslashChar ∧ 32 ≤ c.toNat) :
    jsonString (quoteChar :: (cs ++ quoteChar :: rest)) = some (String.mk cs, rest) := by
  simp [jsonString, jsonStringBody_plain cs rest h]

/-- A text without double quote, backslash and control characters is read
back from the body that `writeApiError` writes for it. -/
theorem writeApiError_plain (code : Int) (text : String)
    (h : ∀ c ∈ text.data, c ≠ quoteChar ∧ c ≠ backslashChar ∧ 32 ≤ c.toNat) :
    (writtenBodies (writeApiError code text)).map decodeAPIError
      = [some (NewAPIError text)] := by
  have hdata : ("\x7b\"type\": \"ApiError\", \"message\": \"" ++ text ++ "\"\x7d").data
      = Char.ofNat 123 :: quoteChar :: ("type".data ++ quoteChar :: ':' :: Char.ofNat 32 ::
          quoteChar :: ("ApiError".data ++ quoteChar :: ',' :: Char.ofNat 32 ::
          quoteChar :: ("message".data ++ quoteChar :: ':' :: Char.ofNat 32 ::
          quoteChar :: (text.data ++ quoteChar :: [Char.ofNat 125])))) := by
    simp only [String.data_append]
    rfl
  have hq : ¬ (quoteChar.toNat = 32 ∨ quoteChar.toNat = 9 ∨ quoteChar.toNat = 10 ∨
      quoteChar.toNat = 13) := by decide
  simp only [writeApiError, writtenBodies, List.map, decodeAPIError, hdata]
  rw [expectChar_cons _ _ (by decide)]
  simp only [skipWs_cons _ _ hq, jsonString_plain "type".data _ (by decide)]
  rw [expectChar_cons _ _ (by decide)]
  simp only [skipWs_space, skipWs_cons _ _ hq, jsonString_plain "ApiError".data _ (by decide)]
  rw [expectChar_cons _ _ (by decide)]
  simp only [skipWs_space, skipWs_cons _ _ hq, jsonString_plain "message".data _ (by decide)]
  rw [expectChar_cons _ _ (by decide)]
  simp only [skipWs_space, skipWs_cons _ _ hq, jsonString_plain text.data _ h]
  rw [expectChar_cons _ _ (by decide)]
  simp [skipWs, NewAPIError]

/-! ## Records and their keys -/

theorem sampleServerAfter_reachable : Reachable acceptAll sampleServerAfter := by
  have hupd : Reachable acceptAll
      { indexSets := some [("a", sampleA), ("b", { sampleB with Title := "B2" })] } :=
    @Reachable.update acceptAll sampleServer
      { indexSets := some [("a", sampleA), ("b", { sampleB with Title := "B2" })] }
      { sampleB with Title := "B2" } (200, none) sampleServer_reachable (by decide)
  have hdel := @Reachable.delete acceptAll _ "a" hupd
  have heq : (DeleteIndexSet
      { indexSets := some [("a", sampleA), ("b", { sampleB with Title := "B2" })] } "a").2
        = sampleServerAfter := by decide
  rw [heq] at hdel
  exact hdel

/-- C21: in every server built from the empty one by `AddIndexSet`,
`UpdateIndexSet` and `DeleteIndexSet` calls, with any records, any generated
identifiers and any outcomes, the record stored under a key carries that key
as its `Id`: `GetIndexSet` never returns a record with another `Id`. -/
theorem reachable_keyed_by_id (V : Validators) (ms : MockServer) (h : Reachable V ms)
    (k : String) (r : IndexSet) (hget : GetIndexSet ms k = some r) :
    r.Id = k :=
  (reachable_inv V h).1 k r hget

theorem reachable_keyed_by_id_witness :
    Reachable acceptAll sampleServerAfter ∧
    GetIndexSet sampleServerAfter "b" = some { sampleB with Title := "B2" } ∧
    ({ sampleB with Title := "B2" } : IndexSet).Id = "b" :=
  ⟨sampleServerAfter_reachable, by decide,
   reachable_keyed_by_id acceptAll sampleServerAfter sampleServerAfter_reachable "b"
     { sampleB with Title := "B2" } (by decide)⟩

end Graylog
